import Mathlib

/-!
Shallow embedding, in Lean 4, of the core of the go-mongo driver
(package mongo): the BSON decoder state machine, the struct metadata
compiler, the object id generator and the collection facade.  Each
definition mirrors one Go function of the repository; byte strings are
modelled as lists of naturals (each byte below 256), Go int32 and int64
values as integers with explicit wrapping, and the panic driven abort
mechanism of the decoder as an exception monad.
-/

namespace GoMongo

/-! ## BSON kind constants (source: bson.go, const block) -/

def kindFloat : Nat := 0x1
def kindString : Nat := 0x2
def kindDocument : Nat := 0x3
def kindArray : Nat := 0x4
def kindBinary : Nat := 0x5
def kindObjectId : Nat := 0x7
def kindBool : Nat := 0x8
def kindDateTime : Nat := 0x9
def kindNull : Nat := 0xA
def kindRegexp : Nat := 0xB
def kindCode : Nat := 0xD
def kindSymbol : Nat := 0xE
def kindCodeWithScope : Nat := 0xF
def kindInt32 : Nat := 0x10
def kindTimestamp : Nat := 0x11
def kindInt64 : Nat := 0x12
def kindMinValue : Nat := 0xff
def kindMaxValue : Nat := 0x7f

/-! ## Little endian byte order helpers

Modelled from the spec: the wire package of the repository is not under
src/; the spec states that BSON is little endian throughout, so
`wire.Uint32` and `wire.Uint64` read 4 and 8 bytes in little endian
order. -/

/-- Modelled from the spec: wire.Uint32, little endian 32 bit read. -/
def leU32 (p : List Nat) : Nat :=
  p.getD 0 0 + p.getD 1 0 * 2 ^ 8 + p.getD 2 0 * 2 ^ 16 + p.getD 3 0 * 2 ^ 24

/-- Modelled from the spec: wire.Uint64, little endian 64 bit read. -/
def leU64 (p : List Nat) : Nat :=
  p.getD 0 0 + p.getD 1 0 * 2 ^ 8 + p.getD 2 0 * 2 ^ 16 + p.getD 3 0 * 2 ^ 24 +
  p.getD 4 0 * 2 ^ 32 + p.getD 5 0 * 2 ^ 40 + p.getD 6 0 * 2 ^ 48 + p.getD 7 0 * 2 ^ 56

/-- Go conversion int32(u) of an unsigned 32 bit value: two complement
reinterpretation. -/
def toInt32 (n : Nat) : Int :=
  if n % 2 ^ 32 < 2 ^ 31 then (n % 2 ^ 32 : Int) else (n % 2 ^ 32 : Int) - 2 ^ 32

/-- Go conversion int64(u) of an unsigned 64 bit value: two complement
reinterpretation. -/
def toInt64 (n : Nat) : Int :=
  if n % 2 ^ 64 < 2 ^ 63 then (n % 2 ^ 64 : Int) else (n % 2 ^ 64 : Int) - 2 ^ 64

/-! ## Go numeric target types for the decoder

The reflect based decoder writes into integer fields of any width.  The
platform int and uint of the original are 64 bits wide.  The name
function reproduces the reflect type strings used in error messages. -/

inductive GoIntTy where
  | i8 | i16 | i32 | i64 | iPlatform
deriving DecidableEq

def GoIntTy.width : GoIntTy → Nat
  | .i8 => 8 | .i16 => 16 | .i32 => 32 | .i64 => 64 | .iPlatform => 64

def GoIntTy.name : GoIntTy → String
  | .i8 => "int8" | .i16 => "int16" | .i32 => "int32" | .i64 => "int64" | .iPlatform => "int"

inductive GoUintTy where
  | u8 | u16 | u32 | u64 | uPlatform
deriving DecidableEq

def GoUintTy.width : GoUintTy → Nat
  | .u8 => 8 | .u16 => 16 | .u32 => 32 | .u64 => 64 | .uPlatform => 64

def GoUintTy.name : GoUintTy → String
  | .u8 => "uint8" | .u16 => "uint16" | .u32 => "uint32" | .u64 => "uint64" | .uPlatform => "uint"

/-- reflect Value.OverflowInt for a signed integer type of width w:
true when the int64 value n cannot be represented in w bits. -/
def overflowInt (w : Nat) (n : Int) : Bool :=
  n < -(2 ^ (w - 1) : Int) ∨ (2 ^ (w - 1) : Int) ≤ n

/-- reflect Value.OverflowUint for an unsigned integer type of width w:
true when the uint64 value n cannot be represented in w bits. -/
def overflowUint (w : Nat) (n : Nat) : Bool :=
  2 ^ w ≤ n

/-- Go conversion uint64(x) of an int64 value: wraps modulo 2 to the 64. -/
def intToUint64 (x : Int) : Nat :=
  (x % 2 ^ 64).toNat

/-! ## IEEE 754 double to integer conversion

The decoder converts a scanned double to int64 or uint64 with Go
conversions.  A double is kept as its 64 raw bits; the conversion
decodes sign, exponent and mantissa exactly.  For NaN, infinities and
out of range values the Go result is implementation defined; the
definitions below fix the amd64 behaviour (cvttsd2si saturates to the
minimum int64). -/

/-- Truncated absolute value of a normal double with exponent e and
mantissa m (bias 1023, 52 mantissa bits). -/
def f64TruncAbs (e m : Nat) : Nat :=
  if 1075 ≤ e then (2 ^ 52 + m) * 2 ^ (e - 1075)
  else (2 ^ 52 + m) / 2 ^ (1075 - e)

/-- Go conversion int64(f) of a double given by its bits (amd64
behaviour for NaN, infinite and out of range values). -/
def f64ToInt (bits : Nat) : Int :=
  let sign := bits / 2 ^ 63 % 2
  let e := bits / 2 ^ 52 % 2 ^ 11
  let m := bits % 2 ^ 52
  if e = 2047 then -(2 ^ 63)
  else
    let a : Nat := if e = 0 then 0 else f64TruncAbs e m
    let v : Int := if sign = 1 then -(a : Int) else (a : Int)
    if v < -(2 ^ 63 : Int) ∨ (2 ^ 63 : Int) ≤ v then -(2 ^ 63) else v

/-- Go conversion uint64(f) of a double given by its bits (amd64
behaviour for NaN, infinite, negative and out of range values). -/
def f64ToUint (bits : Nat) : Nat :=
  let sign := bits / 2 ^ 63 % 2
  let e := bits / 2 ^ 52 % 2 ^ 11
  let m := bits % 2 ^ 52
  if e = 2047 then 2 ^ 63
  else
    let a : Nat := if e = 0 then 0 else f64TruncAbs e m
    if sign = 1 then (if a ≤ 2 ^ 63 then (2 ^ 64 - a) % 2 ^ 64 else 2 ^ 63)
    else if a < 2 ^ 64 then a else 0

/-! ## Decoder errors and state (source: decode.go) -/

/-- Errors produced by the decoder.  eod is ErrEOD; docLengthWrong is
the abort of endDoc; convert is DecodeConvertError (kind plus the
reflect type string of the target); typeErr is DecodeTypeError;
argError carries the errors.New messages of decodeInternal for invalid
targets; goPanic marks a Go runtime panic (out of range slice index)
that handleAbort does not recover; outOfFuel is an artefact of the
bounded recursion of this embedding, corresponding to no Go outcome. -/
inductive BsonError where
  | eod
  | docLengthWrong
  | convert (kind : Nat) (target : String)
  | typeErr (kind : Nat)
  | argError (msg : String)
  | goPanic
  | outOfFuel
deriving DecidableEq

/-- decodeState: read offset in data plus the first saved non fatal
error.  The offset is an integer because skipValue adds signed lengths
to it. -/
structure DecState where
  offset : Int
  savedError : Option BsonError
deriving DecidableEq

/-- The decoding monad: state plus abort.  An abort models the
panic(aborted) mechanism of the source. -/
def DecM (α : Type) : Type := DecState → Except BsonError (α × DecState)

def DecM.pure {α : Type} (a : α) : DecM α := fun s => .ok (a, s)

def DecM.bind {α β : Type} (m : DecM α) (f : α → DecM β) : DecM β := fun s =>
  match m s with
  | .error e => .error e
  | .ok (a, s') => f a s'

instance : Monad DecM where
  pure := DecM.pure
  bind := DecM.bind

def DecM.abort {α : Type} (e : BsonError) : DecM α := fun _ => .error e

/-! ## Scanner primitives (source: decode.go) -/

/-- decodeState.scanByte. -/
def scanByte (data : List Nat) : DecM Nat := fun s =>
  if (data.length : Int) ≤ s.offset then .error .eod
  else if s.offset < 0 then .error .goPanic
  else .ok (data.getD s.offset.toNat 0, { s with offset := s.offset + 1 })

/-- decodeState.scanSlice.  The source checks only the upper bound
before slicing; a negative start or a reversed slice is a Go runtime
panic. -/
def scanSlice (data : List Nat) (n : Int) : DecM (List Nat) := fun s =>
  if (data.length : Int) < s.offset + n then .error .eod
  else if s.offset < 0 ∨ s.offset + n < s.offset then .error .goPanic
  else .ok ((data.drop s.offset.toNat).take n.toNat, { s with offset := s.offset + n })

/-- Unchecked advance of the read offset, the statement offset += n of
the source. -/
def addOffset (n : Int) : DecM Unit := fun s =>
  .ok ((), { s with offset := s.offset + n })

/-- decodeState.beginDoc: read the 32 bit document length and return
the offset at which the document must end. -/
def beginDoc (data : List Nat) : DecM Int := fun s =>
  match scanSlice data 4 s with
  | .error e => .error e
  | .ok (p, s') => .ok (s.offset + (leU32 p : Int), s')

/-- decodeState.endDoc: abort when the current offset differs from the
offset announced by the document length. -/
def endDoc (off : Int) : DecM Unit := fun s =>
  if s.offset ≠ off then .error .docLengthWrong else .ok ((), s)

/-- decodeState.saveError: keep the first non fatal error. -/
def saveError (e : BsonError) : DecM Unit := fun s =>
  .ok ((), { s with savedError := match s.savedError with
    | none => some e
    | some e₀ => some e₀ })

/-- decodeState.scanKindName: read the kind byte, stop at kind zero,
otherwise read the element name up to its NUL terminator. -/
def scanKindName (data : List Nat) : DecM (Nat × List Nat) := fun s =>
  match scanByte data s with
  | .error e => .error e
  | .ok (kind, s₁) =>
    if kind = 0 then .ok ((0, []), s₁)
    else
      match (data.drop s₁.offset.toNat).findIdx? (· = 0) with
      | some i => .ok ((kind, (data.drop s₁.offset.toNat).take i),
          { s₁ with offset := s₁.offset + i + 1 })
      | none => .error .eod

/-- decodeState.scanFloat: the double is kept as its 64 raw bits. -/
def scanFloat (data : List Nat) : DecM Nat := fun s =>
  match scanSlice data 8 s with
  | .error e => .error e
  | .ok (p, s') => .ok (leU64 p, s')

/-- decodeState.scanString: 32 bit length prefix, then the bytes
without the NUL terminator, then skip the terminator. -/
def scanString (data : List Nat) : DecM (List Nat) := fun s =>
  match scanSlice data 4 s with
  | .error e => .error e
  | .ok (p, s₁) =>
    match scanSlice data ((leU32 p : Int) - 1) s₁ with
    | .error e => .error e
    | .ok (q, s₂) => .ok (q, { s₂ with offset := s₂.offset + 1 })

/-- decodeState.scanBinary: 32 bit length, subtype byte, payload. -/
def scanBinary (data : List Nat) : DecM (List Nat × Nat) := fun s =>
  match scanSlice data 4 s with
  | .error e => .error e
  | .ok (p, s₁) =>
    match scanByte data s₁ with
    | .error e => .error e
    | .ok (sub, s₂) =>
      match scanSlice data (leU32 p : Int) s₂ with
      | .error e => .error e
      | .ok (q, s₃) => .ok ((q, sub), s₃)

/-- decodeState.scanBool. -/
def scanBool (data : List Nat) : DecM Bool := fun s =>
  match scanByte data s with
  | .error e => .error e
  | .ok (b, s') => .ok (decide (b ≠ 0), s')

/-- decodeState.scanInt32. -/
def scanInt32 (data : List Nat) : DecM Int := fun s =>
  match scanSlice data 4 s with
  | .error e => .error e
  | .ok (p, s') => .ok (toInt32 (leU32 p), s')

/-- decodeState.scanInt64. -/
def scanInt64 (data : List Nat) : DecM Int := fun s =>
  match scanSlice data 8 s with
  | .error e => .error e
  | .ok (p, s') => .ok (toInt64 (leU64 p), s')

/-! ## skipValue and saveErrorAndSkip (source: decode.go) -/

/-- decodeState.skipValue: advance past the value of the given kind.
The case list of the source omits kindRegexp, kindCode and
kindCodeWithScope, so those kinds abort with DecodeTypeError. -/
def skipValue (data : List Nat) (kind : Nat) : DecM Unit :=
  if kind = kindString ∨ kind = kindSymbol then
    scanInt32 data >>= fun n => addOffset n
  else if kind = kindDocument ∨ kind = kindArray then
    scanInt32 data >>= fun n => addOffset (n - 4)
  else if kind = kindBinary then
    scanInt32 data >>= fun n => addOffset (n + 1)
  else if kind = kindObjectId then addOffset 12
  else if kind = kindBool then addOffset 1
  else if kind = kindDateTime ∨ kind = kindTimestamp ∨ kind = kindInt64 ∨ kind = kindFloat then
    addOffset 8
  else if kind = kindInt32 then addOffset 4
  else if kind = kindMinValue ∨ kind = kindMaxValue ∨ kind = kindNull then addOffset 0
  else DecM.abort (.typeErr kind)

/-- decodeState.saveErrorAndSkip: skip the value, then record a
conversion error for the target type if none is recorded yet. -/
def saveErrorAndSkip (data : List Nat) (kind : Nat) (target : String) : DecM Unit :=
  skipValue data kind >>= fun _ => saveError (.convert kind target)

/-- The kinds present in the case list of skipValue; kindRegexp,
kindCode and kindCodeWithScope are absent. -/
def skippableKind (kind : Nat) : Bool :=
  kind == kindString || kind == kindSymbol || kind == kindDocument || kind == kindArray ||
  kind == kindBinary || kind == kindObjectId || kind == kindBool || kind == kindDateTime ||
  kind == kindTimestamp || kind == kindInt64 || kind == kindFloat || kind == kindInt32 ||
  kind == kindMinValue || kind == kindMaxValue || kind == kindNull

/-- Stated from the words of the spec: the byte size of the payload of
an element of the given kind, per the BSON layout (fixed width
scalars, length prefixed strings and binaries, nested documents whose
declared 32 bit length includes the length field itself).  For length
prefixed kinds the 32 bit prefix is read at the given offset, as a Go
int32 like the skip code does; none when the prefix is not readable or
the kind has no layout in the skip table. -/
def specPayloadSize (data : List Nat) (off : Int) (kind : Nat) : Option Int :=
  let len : Option Int :=
    if 0 ≤ off ∧ off + 4 ≤ (data.length : Int)
    then some (toInt32 (leU32 ((data.drop off.toNat).take 4)))
    else none
  if kind = kindString ∨ kind = kindSymbol then len.map (fun n => 4 + n)
  else if kind = kindDocument ∨ kind = kindArray then len
  else if kind = kindBinary then len.map (fun n => n + 5)
  else if kind = kindObjectId then some 12
  else if kind = kindBool then some 1
  else if kind = kindDateTime ∨ kind = kindTimestamp ∨ kind = kindInt64 ∨ kind = kindFloat
    then some 8
  else if kind = kindInt32 then some 4
  else if kind = kindMinValue ∨ kind = kindMaxValue ∨ kind = kindNull then some 0
  else none

/-! ## Generic interface decoding (source: decode.go) -/

/-- Host value produced by decodeValueInterface for a nil interface
target: the canonical Go value of each kind.  Doubles are kept as raw
bits, Go strings as byte lists, documents as association lists in
insertion order (Go maps are unordered; only the set of entries is
meaningful), nil interface values as null. -/
inductive BValue where
  | double (bits : Nat)
  | str (s : List Nat)
  | doc (m : List (List Nat × BValue))
  | arr (a : List BValue)
  | binary (b : List Nat)
  | objectId (b : List Nat)
  | boolean (b : Bool)
  | datetime (n : Int)
  | null
  | symbol (s : List Nat)
  | int (n : Int)
  | timestamp (n : Int)
  | int64 (n : Int)
  | minmax (n : Int)

/-- Go map assignment m[k] = v on the association list model: replace
the first entry with the key, otherwise append. -/
def assocSet {α β : Type} [BEq α] : List (α × β) → α → β → List (α × β)
  | [], k, v => [(k, v)]
  | (k₀, v₀) :: rest, k, v =>
    if k₀ == k then (k₀, v) :: rest else (k₀, v₀) :: assocSet rest k v

mutual

/-- decodeState.decodeValueInterface.  The fuel argument bounds the
recursion depth of this embedding; with fuel zero the artificial
outOfFuel error is produced.  Note that the document loop of the
source stores a nil entry for kindNull elements (there is no null skip
here, unlike decodeMapStringInterface). -/
def decodeValueInterface (data : List Nat) : Nat → Nat → DecM BValue
  | 0, _ => DecM.abort .outOfFuel
  | fuel + 1, kind =>
    if kind = kindFloat then scanFloat data >>= fun bits => pure (.double bits)
    else if kind = kindString then scanString data >>= fun s => pure (.str s)
    else if kind = kindDocument then
      beginDoc data >>= fun off =>
      docLoopInterface data fuel [] >>= fun m =>
      endDoc off >>= fun _ => pure (.doc m)
    else if kind = kindArray then
      beginDoc data >>= fun off =>
      arrLoopInterface data fuel [] >>= fun a =>
      endDoc off >>= fun _ => pure (.arr a)
    else if kind = kindBinary then scanBinary data >>= fun p => pure (.binary p.1)
    else if kind = kindObjectId then scanSlice data 12 >>= fun p => pure (.objectId p)
    else if kind = kindBool then scanBool data >>= fun b => pure (.boolean b)
    else if kind = kindDateTime then scanInt64 data >>= fun n => pure (.datetime n)
    else if kind = kindNull then pure .null
    else if kind = kindSymbol then scanString data >>= fun s => pure (.symbol s)
    else if kind = kindInt32 then scanInt32 data >>= fun n => pure (.int n)
    else if kind = kindTimestamp then scanInt64 data >>= fun n => pure (.timestamp n)
    else if kind = kindInt64 then scanInt64 data >>= fun n => pure (.int64 n)
    else if kind = kindMinValue then pure (.minmax (-1))
    else if kind = kindMaxValue then pure (.minmax 1)
    else DecM.abort (.typeErr kind)

/-- Element loop of the kindDocument case of decodeValueInterface. -/
def docLoopInterface (data : List Nat) : Nat → List (List Nat × BValue) →
    DecM (List (List Nat × BValue))
  | 0, _ => DecM.abort .outOfFuel
  | fuel + 1, m =>
    scanKindName data >>= fun kn =>
    if kn.1 = 0 then pure m
    else
      decodeValueInterface data fuel kn.1 >>= fun v =>
      docLoopInterface data fuel (assocSet m kn.2 v)

/-- Element loop of the kindArray case of decodeValueInterface. -/
def arrLoopInterface (data : List Nat) : Nat → List BValue → DecM (List BValue)
  | 0, _ => DecM.abort .outOfFuel
  | fuel + 1, a =>
    scanKindName data >>= fun kn =>
    if kn.1 = 0 then pure a
    else
      decodeValueInterface data fuel kn.1 >>= fun v =>
      arrLoopInterface data fuel (a ++ [v])

end

/-- Element loop of decodeMapStringInterface: kindNull elements are
skipped (no entry is created), every other element is decoded through
decodeValueInterface. -/
def msiLoop (data : List Nat) : Nat → List (List Nat × BValue) →
    DecM (List (List Nat × BValue))
  | 0, _ => DecM.abort .outOfFuel
  | fuel + 1, m =>
    scanKindName data >>= fun kn =>
    if kn.1 = 0 then pure m
    else if kn.1 = kindNull then msiLoop data fuel m
    else
      decodeValueInterface data fuel kn.1 >>= fun v =>
      msiLoop data fuel (assocSet m kn.2 v)

/-- decodeMapStringInterface.  Mirrors the source faithfully: when the
kind is not kindDocument the value is skipped and a conversion error
saved, but there is no early return, so the function still proceeds to
parse a document at the now advanced offset. -/
def decodeMapStringInterface (data : List Nat) (fuel : Nat) (kind : Nat)
    (m0 : List (List Nat × BValue)) : DecM (List (List Nat × BValue)) :=
  (if kind ≠ kindDocument
    then saveErrorAndSkip data kind "map[string]interface \x7b\x7d"
    else pure ()) >>= fun _ =>
  beginDoc data >>= fun off =>
  msiLoop data fuel m0 >>= fun m =>
  endDoc off >>= fun _ => pure m

/-! ## Numeric element decoding (source: decode.go, decodeInt and
decodeUint) -/

/-- The scan part of the switch of decodeInt: the int64 value read for
each accepted kind.  Aborts for no kind here; the default case is kept
in decodeInt itself. -/
def scanIntSwitch (data : List Nat) (kind : Nat) : DecM Int :=
  if kind = kindInt64 ∨ kind = kindTimestamp ∨ kind = kindDateTime then scanInt64 data
  else if kind = kindInt32 then scanInt32 data
  else scanFloat data >>= fun bits => pure (f64ToInt bits)

/-- Membership of a kind in the switch of decodeInt and decodeUint. -/
def intSwitchKind (kind : Nat) : Bool :=
  kind = kindInt64 ∨ kind = kindTimestamp ∨ kind = kindDateTime ∨
  kind = kindInt32 ∨ kind = kindFloat

/-- decodeInt specialised to a signed integer field of type t holding
value cur: returns the value the field holds afterwards.  On a kind
the switch does not accept, the value is skipped and a conversion error
saved; on overflow a conversion error is saved and the field is left
unchanged. -/
def decodeInt (data : List Nat) (t : GoIntTy) (cur : Int) (kind : Nat) : DecM Int :=
  if intSwitchKind kind then
    scanIntSwitch data kind >>= fun n =>
    if overflowInt t.width n then
      saveError (.convert kind t.name) >>= fun _ => pure cur
    else pure n
  else
    saveErrorAndSkip data kind t.name >>= fun _ => pure cur

/-- The scan part of the switch of decodeUint: the uint64 value read
for each accepted kind. -/
def scanUintSwitch (data : List Nat) (kind : Nat) : DecM Nat :=
  if kind = kindInt64 ∨ kind = kindTimestamp ∨ kind = kindDateTime then
    scanInt64 data >>= fun n => pure (intToUint64 n)
  else if kind = kindInt32 then
    scanInt32 data >>= fun n => pure (intToUint64 n)
  else scanFloat data >>= fun bits => pure (f64ToUint bits)

/-- decodeUint specialised to an unsigned integer field of type t
holding value cur: returns the value the field holds afterwards. -/
def decodeUint (data : List Nat) (t : GoUintTy) (cur : Nat) (kind : Nat) : DecM Nat :=
  if intSwitchKind kind then
    scanUintSwitch data kind >>= fun n =>
    if overflowUint t.width n then
      saveError (.convert kind t.name) >>= fun _ => pure cur
    else pure n
  else
    saveErrorAndSkip data kind t.name >>= fun _ => pure cur

/-! ## Struct decoding specialised to integer fields (source:
decode.go, decodeStruct) -/

/-- Field table of a struct whose fields are all signed integers: for
each BSON element name the field position and its integer type.  This
is the structSpec name to fieldSpec map restricted to such structs. -/
def IntStructTy : Type := List (List Nat × (Nat × GoIntTy))

/-- fieldSpec lookup by element name. -/
def findField (ty : IntStructTy) (name : List Nat) : Option (Nat × GoIntTy) :=
  (ty.lookup name)

/-- Element loop of decodeStruct for an integer field struct: kind zero
ends the document, kindNull elements are skipped, a known field is
decoded with decodeInt into its slot, an unknown field is skipped with
skipValue. -/
def structIntLoop (data : List Nat) (ty : IntStructTy) :
    Nat → Int → List Int → DecM (List Int)
  | 0, _, _ => DecM.abort .outOfFuel
  | fuel + 1, off, vals =>
    scanKindName data >>= fun kn =>
    if kn.1 = 0 then endDoc off >>= fun _ => pure vals
    else if kn.1 = kindNull then structIntLoop data ty fuel off vals
    else
      match findField ty kn.2 with
      | some (idx, t) =>
        decodeInt data t (vals.getD idx 0) kn.1 >>= fun v =>
        structIntLoop data ty fuel off (vals.set idx v)
      | none =>
        skipValue data kn.1 >>= fun _ => structIntLoop data ty fuel off vals

/-- decodeStruct for an integer field struct.  The kind argument of the
source is not inspected: the value is parsed as a document
unconditionally. -/
def decodeStructInt (data : List Nat) (ty : IntStructTy) (fuel : Nat)
    (vals : List Int) : DecM (List Int) :=
  beginDoc data >>= fun off => structIntLoop data ty fuel off vals

/-! ## Decode entry point (source: decode.go, Decode and
decodeInternal; bson.go, abort and handleAbort) -/

/-- The target argument of Decode, restricted to the shapes this
embedding models: the three invalid argument shapes rejected by
decodeInternal, a map with string keys and interface values, and a
pointer to a struct with integer fields. -/
inductive DecodeTarget where
  | nilMap
  | nilPtr
  | notPtrOrMap
  | mapStringInterface (m0 : List (List Nat × BValue))
  | intStructPtr (ty : IntStructTy) (vals : List Int)

/-- Outcome of decodeInternal: a returned error value (possibly none),
or an unrecovered Go panic escaping handleAbort. -/
inductive DecodeOutcome where
  | ret (err : Option BsonError)
  | panicked
deriving DecidableEq

/-- handleAbort plus the final return of decodeInternal: an abort is
converted into the returned error, a completed pass returns the first
saved error, a Go runtime panic escapes. -/
def runTop {α : Type} (m : DecM α) : DecodeOutcome :=
  match m ⟨0, none⟩ with
  | .error .goPanic => .panicked
  | .error e => .ret (some e)
  | .ok (_, s) => .ret s.savedError

/-- decodeInternal: reject nil maps, nil pointers and non pointer non
map targets with the errors.New messages of the source, then run the
kind directed decode under handleAbort. -/
def decodeInternal (data : List Nat) (fuel : Nat) (kind : Nat) :
    DecodeTarget → DecodeOutcome
  | .nilMap => .ret (some (.argError "bson: Decode map arg must not be nil."))
  | .nilPtr => .ret (some (.argError "bson: Decode pointer arg must not be nil."))
  | .notPtrOrMap => .ret (some (.argError "bson: Decode arg must be pointer or map."))
  | .mapStringInterface m0 => runTop (decodeMapStringInterface data fuel kind m0)
  | .intStructPtr ty vals => runTop (decodeStructInt data ty fuel vals)

/-- Decode: decodeInternal at kindDocument. -/
def Decode (data : List Nat) (fuel : Nat) (tgt : DecodeTarget) : DecodeOutcome :=
  decodeInternal data fuel kindDocument tgt

/-! ## Object ids (source: bson.go, newObjectId and friends)

An object id is modelled as its list of 12 bytes. -/

/-- Go byte(x >> k) for an int64 x: arithmetic shift (floor division
by a positive power of two, which coincides with the euclidean
division used here), then truncation to the low 8 bits. -/
def goByteI (x : Int) (k : Nat) : Nat :=
  ((x / 2 ^ k) % 256).toNat

/-- Go byte(c >> k) for a uint64 c. -/
def goByteU (c : Nat) (k : Nat) : Nat :=
  c / 2 ^ k % 256

/-- newObjectId: four time bytes from the int64 t, eight counter bytes
from the uint64 c, each extracted with byte(v >> shift). -/
def newObjectId (t : Int) (c : Nat) : List Nat :=
  [goByteI t 24, goByteI t 16, goByteI t 8, goByteI t 0,
   goByteU c 56, goByteU c 48, goByteU c 40, goByteU c 32,
   goByteU c 24, goByteU c 16, goByteU c 8, goByteU c 0]

/-- MaxObjectIdForTime: counter fixed to all ones. -/
def MaxObjectIdForTime (t : Int) : List Nat :=
  newObjectId t 0xffffffffffffffff

/-- MinObjectIdForTime: counter fixed to zero. -/
def MinObjectIdForTime (t : Int) : List Nat :=
  newObjectId t 0

/-- ObjectId.CreationTime: zero unless the id has 12 bytes, else the
big endian value of the first four bytes. -/
def CreationTime (id : List Nat) : Int :=
  if id.length ≠ 12 then 0
  else (id.getD 0 0 : Int) * 2 ^ 24 + (id.getD 1 0 : Int) * 2 ^ 16 +
       (id.getD 2 0 : Int) * 2 ^ 8 + (id.getD 3 0 : Int)

/-- Big endian value of a byte list; stated from the words of the spec
(bytes 0..3 interpreted big endian) for comparison with newObjectId. -/
def beBytes (l : List Nat) : Nat :=
  l.foldl (fun acc b => acc * 256 + b) 0

/-! ## Struct metadata (source: bson.go, compileStructInfo,
structInfoForType, StructFields) -/

mutual
/-- Go types as seen by the metadata compiler: only being a struct with
a field list or not matters for the traversal. -/
inductive GoTy where
  | nonStruct : GoTy
  | structTy : GoFields → GoTy
/-- A field list of a Go struct type. -/
inductive GoFields where
  | nil : GoFields
  | cons : GoField → GoFields → GoFields
/-- Go struct fields: name, package path (nonempty exactly for
unexported fields), the anonymous flag for embedded fields, the value
of the bson struct tag, and the field type. -/
inductive GoField where
  | mk : String → String → Bool → String → GoTy → GoField
end

/-- fieldInfo: resolved element name, index path of the field, and the
conditional omit flag. -/
structure FieldInfoM where
  name : String
  index : List Nat
  conditional : Bool
deriving DecidableEq

/-- structInfo before the fields document is attached: the name to
fieldInfo map m and the ordered list l. -/
structure StructInfoM where
  m : List (String × FieldInfoM)
  l : List FieldInfoM
deriving DecidableEq

/-- The depth map passed through compileStructInfo. -/
def DepthMap : Type := List (String × Nat)

/-- Flag loop of the tag handling in compileStructInfo: the flag c sets
the conditional bit, any other flag panics (the type name of the
original message is not modelled). -/
def parseTagFlags : List String → Bool → Except String Bool
  | [], cond => .ok cond
  | s :: rest, _ =>
    if s = "c" then parseTagFlags rest true
    else .error ("bson: unknown field flag " ++ s ++ " for type")

/-- Split of a character list at every slash; the Go function
strings.Split with separator / (an empty input yields one empty
part). -/
def splitSlash : List Char → List (List Char)
  | [] => [[]]
  | c :: rest =>
    if c = '/' then [] :: splitSlash rest
    else
      match splitSlash rest with
      | h :: t => (c :: h) :: t
      | [] => [[c]]

/-- strings.Split(tag, slash) on strings. -/
def goSplitSlash (s : String) : List String :=
  (splitSlash s.toList).map List.asString

/-- Tag handling of compileStructInfo: strings.Split on /, a nonempty
first part renames the field, remaining parts are flags. -/
def parseTag (fname : String) (tag : String) : Except String (String × Bool) :=
  let p := goSplitSlash tag
  let nm := if 0 < (p.headD "").length then p.headD "" else fname
  match parseTagFlags p.tail false with
  | .error e => .error e
  | .ok cond => .ok (nm, cond)

/-- One leaf field reaching the default case of compileStructInfo:
resolved name, conditional flag, the index prefix of the enclosing
traversal and the field position i. -/
structure FieldEvent where
  name : String
  conditional : Bool
  index : List Nat
  i : Nat
deriving DecidableEq

/-- The fieldInfo built for an event in the shallower depth case. -/
def FieldEvent.info (ev : FieldEvent) : FieldInfoM :=
  { name := ev.name, index := ev.index ++ [ev.i], conditional := ev.conditional }

/-- The embedding depth of an event: the length of its index prefix. -/
def FieldEvent.depth (ev : FieldEvent) : Nat := ev.index.length

/-- The default case body of compileStructInfo: compare the depth of
the event with the recorded depth of its name (defaulting to 2 to the
30), delete on a tie, record on strictly shallower, ignore on deeper. -/
def compileStep (dsi : DepthMap × StructInfoM) (ev : FieldEvent) : DepthMap × StructInfoM :=
  let depth := dsi.1
  let si := dsi.2
  let d := (depth.lookup ev.name).getD (2 ^ 30)
  if ev.index.length = d then
    (depth,
     { m := si.m.filter (fun p => p.1 ≠ ev.name),
       l := si.l.filter (fun f => f.name ≠ ev.name) })
  else if ev.index.length < d then
    (assocSet depth ev.name ev.index.length,
     { m := assocSet si.m ev.name ev.info, l := si.l ++ [ev.info] })
  else dsi

/-- compileStructInfo over the field list of a struct type: unexported
fields are ignored, anonymous struct fields are descended into with the
extended index prefix, anonymous non struct fields are ignored, every
other field goes through the tag handling and the depth comparison of
compileStep.  The recursion is structural in the type tree, matching
the Go traversal over a finite reflect type. -/
def compileFields : GoFields → Nat → List Nat → DepthMap → StructInfoM →
    Except String (DepthMap × StructInfoM)
  | .nil, _, _, depth, si => .ok (depth, si)
  | .cons (.mk fname fpkg fanon ftag fty) rest, i, index, depth, si =>
    if fpkg ≠ "" then compileFields rest (i + 1) index depth si
    else if fanon then
      match fty with
      | .structTy fs =>
        match compileFields fs 0 (index ++ [i]) depth si with
        | .error e => .error e
        | .ok (depth', si') => compileFields rest (i + 1) index depth' si'
      | .nonStruct => compileFields rest (i + 1) index depth si
    else
      match parseTag fname ftag with
      | .error e => .error e
      | .ok (nm, cond) =>
        match compileStep (depth, si) ⟨nm, cond, index, i⟩ with
        | (depth', si') => compileFields rest (i + 1) index depth' si'

/-- Linearisation of the traversal of compileFields: the list of leaf
field events in processing order.  Used to state and prove the fold
characterisation of compileFields. -/
def flattenFields : GoFields → Nat → List Nat → Except String (List FieldEvent)
  | .nil, _, _ => .ok []
  | .cons (.mk fname fpkg fanon ftag fty) rest, i, index =>
    if fpkg ≠ "" then flattenFields rest (i + 1) index
    else if fanon then
      match fty with
      | .structTy fs =>
        match flattenFields fs 0 (index ++ [i]) with
        | .error e => .error e
        | .ok evs =>
          match flattenFields rest (i + 1) index with
          | .error e => .error e
          | .ok evs' => .ok (evs ++ evs')
      | .nonStruct => flattenFields rest (i + 1) index
    else
      match parseTag fname ftag with
      | .error e => .error e
      | .ok (nm, cond) =>
        match flattenFields rest (i + 1) index with
        | .error e => .error e
        | .ok evs => .ok (⟨nm, cond, index, i⟩ :: evs)

/-- Minimal embedding depth among the field events with the given
name; none when the name does not occur. -/
def minNameDepth : List FieldEvent → String → Option Nat
  | [], _ => none
  | e :: rest, nm =>
    let r := minNameDepth rest nm
    if e.name = nm then
      match r with
      | none => some e.depth
      | some d => some (min e.depth d)
    else r

/-- Stated from the words of the claim: for each field name keep only
the definition at the strictly shallowest embedding depth, and when
two definitions with the name occur at that depth keep none. -/
def shallowestWins (evs : List FieldEvent) (nm : String) : Option FieldInfoM :=
  match minNameDepth evs nm with
  | none => none
  | some d =>
    match evs.filter (fun e => e.name = nm ∧ e.depth = d) with
    | [e] => some e.info
    | _ => none

/-- structInfo with the fields projection document attached. -/
structure StructInfoT where
  m : List (String × FieldInfoM)
  l : List FieldInfoM
  fields : List (String × Int)
deriving DecidableEq

/-- Loop of structInfoForType building the fields document: a field
named _id only sets hasId, every other field is appended with value 1. -/
def buildFieldsLoop : List FieldInfoM → Bool → List (String × Int) →
    Bool × List (String × Int)
  | [], hasId, acc => (hasId, acc)
  | fi :: rest, hasId, acc =>
    if fi.name = "_id" then buildFieldsLoop rest true acc
    else buildFieldsLoop rest hasId (acc ++ [(fi.name, 1)])

/-- The fields document of structInfoForType: the loop above, then the
pair (_id, 0) appended when no field is named _id. -/
def buildFields (l : List FieldInfoM) : List (String × Int) :=
  match buildFieldsLoop l false [] with
  | (hasId, fields) => if hasId then fields else fields ++ [("_id", 0)]

/-- structInfoForType: compile the struct metadata, then attach the
fields document (the cache and its lock are not modelled; entries are
immutable once built). -/
def structInfoForType : GoTy → Except String StructInfoT
  | .nonStruct => .error "model: not a struct type"
  | .structTy fs =>
    match compileFields fs 0 [] [] ⟨[], []⟩ with
    | .error e => .error e
    | .ok (_, si) => .ok { m := si.m, l := si.l, fields := buildFields si.l }

/-- StructFields: the fields document of the struct metadata. -/
def StructFields (t : GoTy) : Except String (List (String × Int)) :=
  match structInfoForType t with
  | .error e => .error e
  | .ok si => .ok si.fields

/-! ## Collection facade (source: collection.go and database.go) -/

/-- MongoError: the parsed get last error document. -/
structure MongoErrM where
  err : String
  n : Int
  code : Int
  updated : Bool
deriving DecidableEq

/-- Errors surfaced by the collection layer: the ErrNotFound sentinel,
opaque errors injected by the transport (identified by a number),
command errors built by CommandResponse.Error, and a MongoError
returned as an error. -/
inductive GoError where
  | errNotFound
  | injected (k : Nat)
  | command (msg : String)
  | mongo (m : MongoErrM)
deriving DecidableEq

/-- CommandResponse: the ok flag and errmsg of a command reply. -/
structure CommandResponseM where
  ok : Bool
  errmsg : String
deriving DecidableEq

/-- CommandResponse.Error: nil when ok, otherwise an error carrying
errmsg (or the unspecified error text). -/
def commandResponseError (r : CommandResponseM) : Option GoError :=
  if r.ok then none
  else some (.command (if r.errmsg = "" then "unspecified error" else r.errmsg))

/-- The zero MongoError value, what LastError returns when the find
itself fails before anything is decoded. -/
def zeroMongoErr : MongoErrM := ⟨"", 0, 0, false⟩

/-- Environment of one get last error round trip: the outcome of
Conn.Find, the outcome of cursor.Next, and the decoded command
response and MongoError document when Next succeeds. -/
structure GleEnv where
  findErr : Option Nat
  nextErr : Option Nat
  resp : CommandResponseM
  merr : MongoErrM
deriving DecidableEq

/-- Database.LastError: propagate the find error, the next error and
the command error; then return the MongoError document, additionally
as an error when its err field is nonempty. -/
def lastError (e : GleEnv) : MongoErrM × Option GoError :=
  match e.findErr with
  | some k => (zeroMongoErr, some (.injected k))
  | none =>
    match e.nextErr with
    | some k => (e.merr, some (.injected k))
    | none =>
      match commandResponseError e.resp with
      | some err => (e.merr, some err)
      | none =>
        if e.merr.err ≠ "" then (e.merr, some (.mongo e.merr))
        else (e.merr, none)

/-- Collection.checkError: pass a transport error through, skip the
acknowledge when LastErrorCmd is nil, otherwise run LastError.  The
boolean says whether LastErrorCmd is non nil. -/
def checkError (lastErrorCmdSet : Bool) (gle : GleEnv) (err : Option GoError) :
    Option MongoErrM × Option GoError :=
  match err with
  | some e => (none, some e)
  | none =>
    if lastErrorCmdSet = false then (none, none)
    else
      match lastError gle with
      | (m, e) => (some m, e)

/-- Collection.Update: transport update, then checkError; when the
acknowledge document exists, no error occurred and updatedExisting is
false, the ErrNotFound sentinel is returned.  The transport outcome of
Conn.Update is the connErr argument. -/
def collectionUpdate (lastErrorCmdSet : Bool) (gle : GleEnv) (connErr : Option Nat) :
    Option GoError :=
  match checkError lastErrorCmdSet gle (connErr.map .injected) with
  | (some m, none) => if m.updated = false then some .errNotFound else none
  | (_, err) => err

/-- Collection.UpdateAll: identical to Update except for the multi
update option passed to the transport, which the model keeps outside. -/
def collectionUpdateAll (lastErrorCmdSet : Bool) (gle : GleEnv) (connErr : Option Nat) :
    Option GoError :=
  match checkError lastErrorCmdSet gle (connErr.map .injected) with
  | (some m, none) => if m.updated = false then some .errNotFound else none
  | (_, err) => err

/-! ## Index creation (source: collection.go, IndexName and
CreateIndex) -/

/-- Index key directions: the dynamic type of a D value in an index key
document; anything that is not an int or a string panics in
IndexName. -/
inductive IndexDir where
  | int (i : Int)
  | str (s : String)
  | other
deriving DecidableEq

/-- Loop of IndexName over the key document: an underscore between
items, then key, underscore and the direction printed with
strconv.Itoa for ints. -/
def indexNameLoop : List (String × IndexDir) → Nat → String → Except String String
  | [], _, acc => .ok acc
  | (k, v) :: rest, i, acc =>
    let acc := if i ≠ 0 then acc ++ "_" else acc
    let acc := acc ++ k ++ "_"
    match v with
    | .int n => indexNameLoop rest (i + 1) (acc ++ toString n)
    | .str s => indexNameLoop rest (i + 1) (acc ++ s)
    | .other => .error "Index direction must be integer or string."

/-- IndexName: the standard name for an index with the given keys. -/
def IndexName (keys : List (String × IndexDir)) : Except String String :=
  indexNameLoop keys 0 ""

/-- Direction text used in the statement of the name concatenation
claim; other directions never reach it. -/
def dirToString : IndexDir → String
  | .int n => toString n
  | .str s => s
  | .other => ""

/-- Continuation of the spec side index name: one underscore separated
key and direction pair per remaining key. -/
def specIndexNameTail : List (String × IndexDir) → String
  | [] => ""
  | (k, v) :: rest => "_" ++ k ++ "_" ++ dirToString v ++ specIndexNameTail rest

/-- Stated from the words of the spec: the name k1_v1_k2_v2 and so on,
for comparison with IndexName. -/
def specIndexName : List (String × IndexDir) → String
  | [] => ""
  | (k, v) :: rest => k ++ "_" ++ dirToString v ++ specIndexNameTail rest

/-- SplitNamespace: split at the first dot when it is not the first
character. -/
def splitNamespace (s : String) : String × String :=
  match s.toList.findIdx? (· = '.') with
  | some i => if 0 < i then ((s.toList.take i).asString, (s.toList.drop (i + 1)).asString)
              else (s, "")
  | none => (s, "")

/-- Collection: namespace plus the optional last error command, the
command value itself kept opaque as a number. -/
structure CollectionModel where
  Namespace : String
  LastErrorCmd : Option Nat
deriving DecidableEq

/-- The DefaultLastErrorCmd value, opaque in this model. -/
def defaultLastErrorCmd : Nat := 0

/-- IndexOptions of CreateIndex. -/
structure IndexOptionsM where
  Name : String
  Unique : Bool
  DropDups : Bool
  Background : Bool
  Sparse : Bool
  Min : Option Int
  Max : Option Int
  Bits : Int
deriving DecidableEq

/-- The zero IndexOptions value used when nil options are passed. -/
def defaultIndexOptions : IndexOptionsM := ⟨"", false, false, false, false, none, none, 0⟩

/-- The index descriptor CreateIndex inserts. -/
structure IndexDescriptor where
  Keys : List (String × IndexDir)
  Ns : String
  Options : IndexOptionsM
deriving DecidableEq

/-- The effective insert performed by CreateIndex: the namespace it
goes to, the LastErrorCmd in force on the collection performing it, and
the descriptor. -/
structure InsertCall where
  Namespace : String
  LastErrorCmd : Option Nat
  Index : IndexDescriptor
deriving DecidableEq

/-- Name resolution of CreateIndex: when the options give no name, the
descriptor name is IndexName of the keys. -/
def resolveIndexName (keys : List (String × IndexDir)) (opts : IndexOptionsM) :
    Except String String :=
  if opts.Name = "" then IndexName keys else .ok opts.Name

/-- The options value after the nil check of CreateIndex. -/
def effectiveOptions (options : Option IndexOptionsM) : IndexOptionsM :=
  match options with
  | some o => o
  | none => defaultIndexOptions

/-- The LastErrorCmd forced on by CreateIndex before the insert. -/
def forcedLastErrorCmd (cmd : Option Nat) : Option Nat :=
  match cmd with
  | none => some defaultLastErrorCmd
  | some x => some x

/-- CreateIndex: build the descriptor with the collection namespace,
default the name to IndexName, force LastErrorCmd to the default
command when nil, and insert into system.indexes of the same
database. -/
def CreateIndex (c : CollectionModel) (keys : List (String × IndexDir))
    (options : Option IndexOptionsM) : Except String InsertCall :=
  match resolveIndexName keys (effectiveOptions options) with
  | .error e => .error e
  | .ok nm =>
    .ok { Namespace := (splitNamespace c.Namespace).1 ++ "." ++ "system.indexes",
          LastErrorCmd := forcedLastErrorCmd c.LastErrorCmd,
          Index := { Keys := keys, Ns := c.Namespace,
                     Options := { effectiveOptions options with Name := nm } } }

/-! # Helper lemmas -/

theorem DecM.bind_apply {α β : Type} (m : DecM α) (f : α → DecM β) (s : DecState) :
    (m >>= f) s = match m s with
      | .error e => .error e
      | .ok (a, s') => f a s' := rfl

theorem DecM.pure_apply {α : Type} (a : α) (s : DecState) :
    (Pure.pure (f := DecM) a) s = .ok (a, s) := rfl

theorem DecM.bind_apply_ok {α β : Type} (m : DecM α) (f : α → DecM β) (s : DecState)
    (a : α) (s' : DecState) (h : m s = .ok (a, s')) : (m >>= f) s = f a s' := by
  rw [DecM.bind_apply, h]

theorem DecM.bind_apply_error {α β : Type} (m : DecM α) (f : α → DecM β) (s : DecState)
    (e : BsonError) (h : m s = .error e) : (m >>= f) s = .error e := by
  rw [DecM.bind_apply, h]

theorem DecM.bind_eq_ok {α β : Type} {m : DecM α} {f : α → DecM β} {s : DecState}
    {b : β} {s₂ : DecState} (h : (m >>= f) s = .ok (b, s₂)) :
    ∃ a s₁, m s = .ok (a, s₁) ∧ f a s₁ = .ok (b, s₂) := by
  rw [DecM.bind_apply] at h
  cases hm : m s with
  | error e => rw [hm] at h; exact absurd h (by simp)
  | ok p =>
    obtain ⟨a, s₁⟩ := p
    rw [hm] at h
    exact ⟨a, s₁, rfl, h⟩

/-- indexNameLoop with a nonzero index prepends a separator before
every remaining pair. -/
theorem indexNameLoop_valid (keys : List (String × IndexDir)) :
    ∀ (acc : String) (i : Nat), i ≠ 0 → (∀ kv ∈ keys, kv.2 ≠ IndexDir.other) →
    indexNameLoop keys i acc = .ok (acc ++ specIndexNameTail keys) := by
  induction keys with
  | nil =>
    intro acc i _ _
    simp [indexNameLoop, specIndexNameTail]
  | cons kv rest ih =>
    intro acc i hi hv
    obtain ⟨k, v⟩ := kv
    have hrest : ∀ kv ∈ rest, kv.2 ≠ IndexDir.other := fun kv h => hv kv (List.mem_cons_of_mem _ h)
    cases v with
    | int n =>
      simp only [indexNameLoop]
      rw [ih _ (i + 1) (Nat.succ_ne_zero i) hrest, if_pos hi]
      simp [specIndexNameTail, dirToString, String.append_assoc]
    | str s =>
      simp only [indexNameLoop]
      rw [ih _ (i + 1) (Nat.succ_ne_zero i) hrest, if_pos hi]
      simp [specIndexNameTail, dirToString, String.append_assoc]
    | other =>
      exact absurd rfl (hv (k, .other) (List.mem_cons_self _ _))

/-- IndexName of a key document with only int and string directions is
the underscore joined concatenation of keys and directions. -/
theorem indexName_spec (keys : List (String × IndexDir))
    (hv : ∀ kv ∈ keys, kv.2 ≠ IndexDir.other) :
    IndexName keys = .ok (specIndexName keys) := by
  cases keys with
  | nil => simp [IndexName, indexNameLoop, specIndexName]
  | cons kv rest =>
    obtain ⟨k, v⟩ := kv
    have hrest : ∀ kv ∈ rest, kv.2 ≠ IndexDir.other := fun kv h => hv kv (List.mem_cons_of_mem _ h)
    cases v with
    | int n =>
      simp only [IndexName, indexNameLoop, specIndexName]
      rw [indexNameLoop_valid rest _ 1 one_ne_zero hrest]
      simp [dirToString, String.append_assoc]
    | str s =>
      simp only [IndexName, indexNameLoop, specIndexName]
      rw [indexNameLoop_valid rest _ 1 one_ne_zero hrest]
      simp [dirToString, String.append_assoc]
    | other =>
      exact absurd rfl (hv (k, .other) (List.mem_cons_self _ _))

/-- UpdateAll differs from Update only in the transport options, which
the model keeps outside; the acknowledge logic is the same function. -/
theorem updateAll_eq_update : collectionUpdateAll = collectionUpdate := rfl

/-- The error component of LastError is nil exactly when the find, the
next, the command status and the err field are all clean. -/
theorem lastError_snd_none_iff (gle : GleEnv) :
    (lastError gle).2 = none ↔
      gle.findErr = none ∧ gle.nextErr = none ∧ gle.resp.ok = true ∧
        gle.merr.err = "" := by
  obtain ⟨f, n, ⟨ok, msg⟩, merr⟩ := gle
  cases f <;> cases n <;> cases ok <;>
    simp [lastError, commandResponseError] <;>
    by_cases h : merr.err = "" <;> simp [h]

/-- LastError never returns the ErrNotFound sentinel as its error. -/
theorem lastError_snd_ne_notFound (gle : GleEnv) (e : GoError)
    (h : (lastError gle).2 = some e) : e ≠ .errNotFound := by
  rintro rfl
  obtain ⟨f, n, ⟨ok, msg⟩, merr⟩ := gle
  cases f with
  | some k => simp [lastError] at h
  | none =>
    cases n with
    | some k => simp [lastError] at h
    | none =>
      cases ok with
      | false => simp [lastError, commandResponseError] at h
      | true =>
        simp only [lastError, commandResponseError, if_pos rfl] at h
        split_ifs at h <;> simp_all

/-- When LastError reports no error, the MongoError document it
returns is the decoded one. -/
theorem lastError_fst_of_none (gle : GleEnv) (h : (lastError gle).2 = none) :
    (lastError gle).1 = gle.merr := by
  obtain ⟨f, n, ⟨ok, msg⟩, merr⟩ := gle
  cases f <;> cases n <;> cases ok <;>
    simp_all [lastError, commandResponseError] <;>
    by_cases hm : merr.err = "" <;> simp_all

/-- Characterisation of the ErrNotFound outcome of Update. -/
theorem update_notFound_iff (ack : Bool) (gle : GleEnv) (connErr : Option Nat) :
    collectionUpdate ack gle connErr = some .errNotFound ↔
      ack = true ∧ connErr = none ∧ (lastError gle).2 = none ∧
        gle.merr.updated = false := by
  cases connErr with
  | some k => simp [collectionUpdate, checkError]
  | none =>
    cases ack with
    | false => simp [collectionUpdate, checkError]
    | true =>
      cases h : (lastError gle).2 with
      | some e =>
        have hne := lastError_snd_ne_notFound gle e h
        simp [collectionUpdate, checkError, h, hne]
      | none =>
        have hfst := lastError_fst_of_none gle h
        by_cases hu : gle.merr.updated = false <;>
          simp [collectionUpdate, checkError, h, hfst, hu]

/-- The fields building loop appends every field except those named
_id with value 1 and reports whether some field is named _id. -/
theorem buildFieldsLoop_spec (l : List FieldInfoM) :
    ∀ (hasId : Bool) (acc : List (String × Int)),
    buildFieldsLoop l hasId acc =
      (hasId || l.any (fun fi => fi.name = "_id"),
       acc ++ (l.filter (fun fi => fi.name ≠ "_id")).map (fun fi => (fi.name, (1 : Int)))) := by
  induction l with
  | nil => intro hasId acc; simp [buildFieldsLoop]
  | cons fi rest ih =>
    intro hasId acc
    by_cases h : fi.name = "_id"
    · simp [buildFieldsLoop, h, ih]
    · simp [buildFieldsLoop, h, ih]

/-- The fields document: every non _id field with value 1 in list
order, then the pair (_id, 0) exactly when no field is named _id. -/
theorem buildFields_spec (l : List FieldInfoM) :
    buildFields l =
      (l.filter (fun fi => fi.name ≠ "_id")).map (fun fi => (fi.name, (1 : Int))) ++
        (if l.any (fun fi => fi.name = "_id") then [] else [("_id", 0)]) := by
  unfold buildFields
  rw [buildFieldsLoop_spec]
  by_cases h : l.any (fun fi => fi.name = "_id") <;> simp [h]

/-- Setting a list entry to the value it already holds changes
nothing. -/
theorem set_getD_self (l : List Int) : ∀ (i : Nat), i < l.length →
    l.set i (l.getD i 0) = l := by
  induction l with
  | nil => intro i h; simp at h
  | cons a rest ih =>
    intro i h
    cases i with
    | zero => simp
    | succ j =>
      simp only [List.getD, List.get?, List.set]
      have := ih j (by simpa using h)
      simpa [List.getD] using this

/-- The kinds of the decodeInt and decodeUint switch include the three
numeric kinds. -/
theorem intSwitchKind_of (kind : Nat)
    (h : kind = kindInt32 ∨ kind = kindInt64 ∨ kind = kindFloat) :
    intSwitchKind kind = true := by
  rcases h with rfl | rfl | rfl <;> decide

/-- decodeInt on an accepted kind whose scanned value overflows the
target: the conversion error is recorded unless one is already saved,
the field keeps its value, and the computation continues normally. -/
theorem decodeInt_overflow (data : List Nat) (t : GoIntTy) (cur n : Int)
    (kind : Nat) (s s₁ : DecState)
    (hk : kind = kindInt32 ∨ kind = kindInt64 ∨ kind = kindFloat)
    (hscan : scanIntSwitch data kind s = .ok (n, s₁))
    (hov : overflowInt t.width n = true) :
    decodeInt data t cur kind s =
      .ok (cur, { s₁ with savedError := match s₁.savedError with
        | none => some (.convert kind t.name)
        | some e₀ => some e₀ }) := by
  unfold decodeInt
  rw [if_pos (intSwitchKind_of kind hk), DecM.bind_apply_ok _ _ _ _ _ hscan, hov,
    if_pos rfl, DecM.bind_apply]
  rfl

/-- decodeUint counterpart of the overflow behaviour. -/
theorem decodeUint_overflow (data : List Nat) (t : GoUintTy) (cur : Nat) (n : Nat)
    (kind : Nat) (s s₁ : DecState)
    (hk : kind = kindInt32 ∨ kind = kindInt64 ∨ kind = kindFloat)
    (hscan : scanUintSwitch data kind s = .ok (n, s₁))
    (hov : overflowUint t.width n = true) :
    decodeUint data t cur kind s =
      .ok (cur, { s₁ with savedError := match s₁.savedError with
        | none => some (.convert kind t.name)
        | some e₀ => some e₀ }) := by
  unfold decodeUint
  rw [if_pos (intSwitchKind_of kind hk), DecM.bind_apply_ok _ _ _ _ _ hscan, hov,
    if_pos rfl, DecM.bind_apply]
  rfl

/-- One struct loop step on a numeric element that overflows its
matched integer field: the error is recorded (first error wins), the
slot list is unchanged, and the loop continues with the remaining
elements. -/
theorem structIntLoop_overflow_step (data : List Nat) (ty : IntStructTy)
    (fuel : Nat) (off : Int) (vals : List Int) (s s₁ s₂ : DecState)
    (kind : Nat) (name : List Nat) (idx : Nat) (t : GoIntTy) (n : Int)
    (hscan : scanKindName data s = .ok ((kind, name), s₁))
    (hk : kind = kindInt32 ∨ kind = kindInt64 ∨ kind = kindFloat)
    (hf : findField ty name = some (idx, t))
    (hidx : idx < vals.length)
    (hnum : scanIntSwitch data kind s₁ = .ok (n, s₂))
    (hov : overflowInt t.width n = true) :
    structIntLoop data ty (fuel + 1) off vals s =
      structIntLoop data ty fuel off vals
        { s₂ with savedError := match s₂.savedError with
          | none => some (.convert kind t.name)
          | some e₀ => some e₀ } := by
  have hk0 : kind ≠ 0 := by rcases hk with rfl | rfl | rfl <;> decide
  have hknull : kind ≠ kindNull := by rcases hk with rfl | rfl | rfl <;> decide
  show (scanKindName data >>= fun kn =>
    if kn.1 = 0 then endDoc off >>= fun _ => pure vals
    else if kn.1 = kindNull then structIntLoop data ty fuel off vals
    else
      match findField ty kn.2 with
      | some (idx, t) =>
        decodeInt data t (vals.getD idx 0) kn.1 >>= fun v =>
        structIntLoop data ty fuel off (vals.set idx v)
      | none =>
        skipValue data kn.1 >>= fun _ => structIntLoop data ty fuel off vals) s = _
  rw [DecM.bind_apply_ok _ _ _ _ _ hscan]
  dsimp only
  rw [if_neg hk0, if_neg hknull, hf]
  dsimp only
  rw [DecM.bind_apply_ok _ _ _ _ _
    (decodeInt_overflow data t (vals.getD idx 0) n kind s₁ s₂ hk hnum hov)]
  rw [set_getD_self vals idx hidx]

/-- scanInt32 succeeds and advances by four when four bytes are in
range. -/
theorem scanInt32_ok (data : List Nat) (s : DecState) (h0 : 0 ≤ s.offset)
    (h4 : s.offset + 4 ≤ (data.length : Int)) :
    scanInt32 data s = .ok (toInt32 (leU32 ((data.drop s.offset.toNat).take 4)),
      { s with offset := s.offset + 4 }) := by
  unfold scanInt32 scanSlice
  rw [if_neg (by omega : ¬((data.length : Int) < s.offset + 4)),
    if_neg (by omega : ¬(s.offset < 0 ∨ s.offset + 4 < s.offset))]
  rfl

/-- skipValue advances by exactly the payload size of the kind given by
the spec layout, for every kind in its case list. -/
theorem skipValue_advance (data : List Nat) (kind : Nat) (s : DecState) (sz : Int)
    (hskip : skippableKind kind = true)
    (hsz : specPayloadSize data s.offset kind = some sz) :
    skipValue data kind s = .ok ((), { s with offset := s.offset + sz }) := by
  unfold skipValue
  unfold specPayloadSize at hsz
  split_ifs with h1 h2 h3 h4 h5 h6 h7 h8
  · -- string or symbol
    rw [if_pos h1] at hsz
    by_cases hb : 0 ≤ s.offset ∧ s.offset + 4 ≤ (data.length : Int)
    · rw [if_pos hb] at hsz
      simp only [Option.map_some', Option.some.injEq] at hsz
      rw [DecM.bind_apply_ok _ _ _ _ _ (scanInt32_ok data s hb.1 hb.2)]
      simp only [addOffset, Except.ok.injEq, Prod.mk.injEq, DecState.mk.injEq]
      exact ⟨trivial, by omega, trivial⟩
    · rw [if_neg hb] at hsz; simp at hsz
  · -- document or array
    rw [if_neg h1, if_pos h2] at hsz
    by_cases hb : 0 ≤ s.offset ∧ s.offset + 4 ≤ (data.length : Int)
    · rw [if_pos hb] at hsz
      simp only [Option.some.injEq] at hsz
      rw [DecM.bind_apply_ok _ _ _ _ _ (scanInt32_ok data s hb.1 hb.2)]
      simp only [addOffset, Except.ok.injEq, Prod.mk.injEq, DecState.mk.injEq]
      exact ⟨trivial, by omega, trivial⟩
    · rw [if_neg hb] at hsz; simp at hsz
  · -- binary
    rw [if_neg h1, if_neg h2, if_pos h3] at hsz
    by_cases hb : 0 ≤ s.offset ∧ s.offset + 4 ≤ (data.length : Int)
    · rw [if_pos hb] at hsz
      simp only [Option.map_some', Option.some.injEq] at hsz
      rw [DecM.bind_apply_ok _ _ _ _ _ (scanInt32_ok data s hb.1 hb.2)]
      simp only [addOffset, Except.ok.injEq, Prod.mk.injEq, DecState.mk.injEq]
      exact ⟨trivial, by omega, trivial⟩
    · rw [if_neg hb] at hsz; simp at hsz
  · rw [if_neg h1, if_neg h2, if_neg h3, if_pos h4] at hsz
    simp at hsz
    subst hsz
    rfl
  · rw [if_neg h1, if_neg h2, if_neg h3, if_neg h4, if_pos h5] at hsz
    simp at hsz
    subst hsz
    rfl
  · rw [if_neg h1, if_neg h2, if_neg h3, if_neg h4, if_neg h5, if_pos h6] at hsz
    simp at hsz
    subst hsz
    rfl
  · rw [if_neg h1, if_neg h2, if_neg h3, if_neg h4, if_neg h5, if_neg h6, if_pos h7] at hsz
    simp at hsz
    subst hsz
    rfl
  · rw [if_neg h1, if_neg h2, if_neg h3, if_neg h4, if_neg h5, if_neg h6, if_neg h7,
      if_pos h8] at hsz
    simp at hsz
    subst hsz
    rfl
  · rw [if_neg h1, if_neg h2, if_neg h3, if_neg h4, if_neg h5, if_neg h6, if_neg h7,
      if_neg h8] at hsz
    simp at hsz

/-- saveErrorAndSkip on a skippable kind: exact advance, the first
conversion error recorded, normal continuation. -/
theorem saveErrorAndSkip_advance (data : List Nat) (kind : Nat) (target : String)
    (s : DecState) (sz : Int)
    (hskip : skippableKind kind = true)
    (hsz : specPayloadSize data s.offset kind = some sz) :
    saveErrorAndSkip data kind target s =
      .ok ((), { offset := s.offset + sz,
                 savedError := match s.savedError with
                   | none => some (.convert kind target)
                   | some e₀ => some e₀ }) := by
  unfold saveErrorAndSkip
  rw [DecM.bind_apply_ok _ _ _ _ _ (skipValue_advance data kind s sz hskip hsz)]
  rfl

/-! ## Struct metadata lemmas -/

theorem assocSet_lookup_self {β : Type} (l : List (String × β)) (k : String) (v : β) :
    (assocSet l k v).lookup k = some v := by
  induction l with
  | nil => simp [assocSet, List.lookup]
  | cons p rest ih =>
    obtain ⟨k₀, v₀⟩ := p
    by_cases h : k₀ = k
    · simp [assocSet, h, List.lookup]
    · simp only [assocSet, beq_iff_eq, if_neg h, List.lookup,
        show (k == k₀) = false from beq_eq_false_iff_ne.mpr (Ne.symm h)]
      exact ih

theorem assocSet_lookup_ne {β : Type} (l : List (String × β)) (k : String) (v : β)
    (k' : String) (h : k' ≠ k) : (assocSet l k v).lookup k' = l.lookup k' := by
  induction l with
  | nil =>
    simp [assocSet, List.lookup, show (k' == k) = false from beq_eq_false_iff_ne.mpr h]
  | cons p rest ih =>
    obtain ⟨k₀, v₀⟩ := p
    by_cases h0 : k₀ = k
    · subst h0
      simp only [assocSet, beq_iff_eq, if_pos rfl, List.lookup,
        show (k' == k₀) = false from beq_eq_false_iff_ne.mpr h]
    · simp only [assocSet, beq_iff_eq, if_neg h0, List.lookup]
      by_cases h1 : k' = k₀
      · simp [h1]
      · simp only [show (k' == k₀) = false from beq_eq_false_iff_ne.mpr h1]
        exact ih

theorem filter_erase_lookup_self {β : Type} (l : List (String × β)) (k : String) :
    (l.filter (fun p => p.1 ≠ k)).lookup k = none := by
  induction l with
  | nil => simp [List.lookup]
  | cons p rest ih =>
    obtain ⟨k₀, v₀⟩ := p
    by_cases h : k₀ = k
    · subst h
      simp only [List.filter, show (decide ¬(k₀ = k₀)) = false from by simp]
      exact ih
    · simp only [List.filter, show (decide ¬(k₀ = k)) = true from by simp [h], List.lookup,
        show (k == k₀) = false from beq_eq_false_iff_ne.mpr (Ne.symm h)]
      exact ih

theorem filter_erase_lookup_ne {β : Type} (l : List (String × β)) (k k' : String)
    (h : k' ≠ k) : (l.filter (fun p => p.1 ≠ k)).lookup k' = l.lookup k' := by
  induction l with
  | nil => simp [List.lookup]
  | cons p rest ih =>
    obtain ⟨k₀, v₀⟩ := p
    by_cases h0 : k₀ = k
    · subst h0
      simp only [List.filter, show (decide ¬(k₀ = k₀)) = false from by simp, List.lookup,
        show (k' == k₀) = false from beq_eq_false_iff_ne.mpr h]
      exact ih
    · simp only [List.filter, show (decide ¬(k₀ = k)) = true from by simp [h0], List.lookup]
      by_cases h1 : k' = k₀
      · simp [List.lookup, h1]
      · simp only [show (k' == k₀) = false from beq_eq_false_iff_ne.mpr h1]
        exact ih

theorem minNameDepth_append (evs : List FieldEvent) (e : FieldEvent) (nm : String) :
    minNameDepth (evs ++ [e]) nm =
      if e.name = nm then
        match minNameDepth evs nm with
        | none => some e.depth
        | some d => some (min d e.depth)
      else minNameDepth evs nm := by
  induction evs with
  | nil => by_cases h : e.name = nm <;> simp [minNameDepth, h]
  | cons a rest ih =>
    have hcons : (a :: rest) ++ [e] = a :: (rest ++ [e]) := rfl
    rw [hcons]
    by_cases ha : a.name = nm <;> by_cases hee : e.name = nm
    · rw [minNameDepth]
      simp only [ha, ite_true, ih, hee]
      rw [minNameDepth]
      simp only [ha, ite_true]
      cases hr : minNameDepth rest nm
      · simp
      · simp only [Option.some.injEq]
        omega
    · rw [minNameDepth]
      simp only [ha, ite_true, ih, hee, ite_false]
      rw [minNameDepth]
      simp only [ha, ite_true]
    · rw [minNameDepth]
      simp only [ha, ite_false, ih, hee, ite_true]
      rw [minNameDepth]
      simp only [ha, ite_false]
    · rw [minNameDepth]
      simp only [ha, ite_false, ih, hee, ite_false]
      rw [minNameDepth]
      simp only [ha, ite_false]

theorem minNameDepth_none (evs : List FieldEvent) (nm : String)
    (h : minNameDepth evs nm = none) : ∀ x ∈ evs, x.name ≠ nm := by
  induction evs with
  | nil => simp
  | cons a rest ih =>
    intro x hx
    simp only [minNameDepth] at h
    by_cases ha : a.name = nm
    · rw [if_pos ha] at h
      cases hr : minNameDepth rest nm <;> rw [hr] at h <;> exact absurd h (by simp)
    · rw [if_neg ha] at h
      rcases List.mem_cons.mp hx with rfl | hx'
      · exact ha
      · exact ih h x hx'

theorem minNameDepth_le (evs : List FieldEvent) (nm : String) (D : Nat)
    (h : minNameDepth evs nm = some D) : ∀ x ∈ evs, x.name = nm → D ≤ x.depth := by
  induction evs generalizing D with
  | nil => simp [minNameDepth] at h
  | cons a rest ih =>
    intro x hx hnx
    simp only [minNameDepth] at h
    rcases List.mem_cons.mp hx with rfl | hx'
    · rw [if_pos hnx] at h
      cases hr : minNameDepth rest nm <;> rw [hr] at h <;>
        simp only [Option.some.injEq] at h <;> omega
    · by_cases ha : a.name = nm
      · rw [if_pos ha] at h
        cases hr : minNameDepth rest nm with
        | none => exact absurd (minNameDepth_none rest nm hr x hx') (by simp [hnx])
        | some d =>
          rw [hr] at h
          simp only [Option.some.injEq] at h
          have := ih d hr x hx' hnx
          omega
      · rw [if_neg ha] at h
        exact ih D h x hx' hnx

theorem minNameDepth_attained (evs : List FieldEvent) (nm : String) (D : Nat)
    (h : minNameDepth evs nm = some D) : ∃ x ∈ evs, x.name = nm ∧ x.depth = D := by
  induction evs generalizing D with
  | nil => simp [minNameDepth] at h
  | cons a rest ih =>
    simp only [minNameDepth] at h
    by_cases ha : a.name = nm
    · rw [if_pos ha] at h
      cases hr : minNameDepth rest nm with
      | none =>
        rw [hr] at h
        simp only [Option.some.injEq] at h
        exact ⟨a, List.mem_cons_self _ _, ha, by omega⟩
      | some d =>
        rw [hr] at h
        simp only [Option.some.injEq] at h
        by_cases hle : a.depth ≤ d
        · exact ⟨a, List.mem_cons_self _ _, ha, by omega⟩
        · obtain ⟨x, hx, hxn, hxd⟩ := ih d hr
          exact ⟨x, List.mem_cons_of_mem _ hx, hxn, by omega⟩
    · rw [if_neg ha] at h
      obtain ⟨x, hx, hxn, hxd⟩ := ih D h
      exact ⟨x, List.mem_cons_of_mem _ hx, hxn, hxd⟩

theorem shallowestWins_eq_none (l : List FieldEvent) (nm : String)
    (h : minNameDepth l nm = none) : shallowestWins l nm = none := by
  unfold shallowestWins
  rw [h]

theorem shallowestWins_eq_some (l : List FieldEvent) (nm : String) (d : Nat)
    (h : minNameDepth l nm = some d) :
    shallowestWins l nm =
      (match l.filter (fun e => e.name = nm ∧ e.depth = d) with
       | [e] => some e.info
       | _ => none) := by
  unfold shallowestWins
  rw [h]

theorem shallowestWins_append_new (evs : List FieldEvent) (e : FieldEvent)
    (hmin : minNameDepth evs e.name = none) :
    shallowestWins (evs ++ [e]) e.name = some e.info := by
  have hmin' : minNameDepth (evs ++ [e]) e.name = some e.depth := by
    rw [minNameDepth_append, if_pos rfl, hmin]
  rw [shallowestWins_eq_some _ _ _ hmin']
  have hfil : evs.filter (fun x => x.name = e.name ∧ x.depth = e.depth) = [] := by
    rw [List.filter_eq_nil_iff]
    intro x hx
    simp only [decide_eq_true_eq, not_and]
    intro hxn
    exact absurd hxn (minNameDepth_none evs e.name hmin x hx)
  have hfe : List.filter (fun y => decide (y.name = e.name ∧ y.depth = e.depth)) [e] = [e] := by
    simp
  rw [List.filter_append, hfil, hfe]
  rfl

theorem shallowestWins_append_shallower (evs : List FieldEvent) (e : FieldEvent)
    (D : Nat) (hmin : minNameDepth evs e.name = some D) (hlt : e.depth < D) :
    shallowestWins (evs ++ [e]) e.name = some e.info := by
  have hmin' : minNameDepth (evs ++ [e]) e.name = some e.depth := by
    rw [minNameDepth_append, if_pos rfl, hmin]
    show some (min D e.depth) = some e.depth
    exact congrArg some (by omega)
  rw [shallowestWins_eq_some _ _ _ hmin']
  have hfil : evs.filter (fun x => x.name = e.name ∧ x.depth = e.depth) = [] := by
    rw [List.filter_eq_nil_iff]
    intro x hx
    simp only [decide_eq_true_eq, not_and]
    intro hxn hxd
    have := minNameDepth_le evs e.name D hmin x hx hxn
    omega
  have hfe : List.filter (fun y => decide (y.name = e.name ∧ y.depth = e.depth)) [e] = [e] := by
    simp
  rw [List.filter_append, hfil, hfe]
  rfl

theorem shallowestWins_append_tie (evs : List FieldEvent) (e : FieldEvent)
    (D : Nat) (hmin : minNameDepth evs e.name = some D) (heq : e.depth = D) :
    shallowestWins (evs ++ [e]) e.name = none := by
  have hmin' : minNameDepth (evs ++ [e]) e.name = some D := by
    rw [minNameDepth_append, if_pos rfl, hmin]
    show some (min D e.depth) = some D
    exact congrArg some (by omega)
  rw [shallowestWins_eq_some _ _ _ hmin']
  obtain ⟨x, hx, hxn, hxd⟩ := minNameDepth_attained evs e.name D hmin
  have hmem : x ∈ evs.filter (fun y => y.name = e.name ∧ y.depth = D) := by
    rw [List.mem_filter]
    exact ⟨hx, by simp [hxn, hxd]⟩
  have hne : evs.filter (fun y => y.name = e.name ∧ y.depth = D) ≠ [] :=
    List.ne_nil_of_mem hmem
  obtain ⟨a, t, ht⟩ := List.exists_cons_of_ne_nil hne
  have hfe : List.filter (fun y => decide (y.name = e.name ∧ y.depth = D)) [e] = [e] := by
    simp [heq]
  rw [List.filter_append, ht, hfe, List.cons_append]
  cases t <;> rfl

theorem shallowestWins_append_deeper (evs : List FieldEvent) (e : FieldEvent)
    (D : Nat) (hmin : minNameDepth evs e.name = some D) (hgt : D < e.depth) :
    shallowestWins (evs ++ [e]) e.name = shallowestWins evs e.name := by
  have hmin' : minNameDepth (evs ++ [e]) e.name = some D := by
    rw [minNameDepth_append, if_pos rfl, hmin]
    show some (min D e.depth) = some D
    exact congrArg some (by omega)
  rw [shallowestWins_eq_some _ _ _ hmin', shallowestWins_eq_some _ _ _ hmin]
  have hfe : List.filter (fun y => decide (y.name = e.name ∧ y.depth = D)) [e] = [] := by
    simp
    omega
  rw [List.filter_append, hfe, List.append_nil]

theorem shallowestWins_append_other (evs : List FieldEvent) (e : FieldEvent)
    (nm : String) (hne : nm ≠ e.name) :
    shallowestWins (evs ++ [e]) nm = shallowestWins evs nm := by
  have hne' : e.name ≠ nm := fun h => hne h.symm
  cases hmin : minNameDepth evs nm with
  | none =>
    have hmin' : minNameDepth (evs ++ [e]) nm = none := by
      rw [minNameDepth_append, if_neg hne', hmin]
    rw [shallowestWins_eq_none _ _ hmin', shallowestWins_eq_none _ _ hmin]
  | some D =>
    have hmin' : minNameDepth (evs ++ [e]) nm = some D := by
      rw [minNameDepth_append, if_neg hne', hmin]
    rw [shallowestWins_eq_some _ _ _ hmin', shallowestWins_eq_some _ _ _ hmin]
    have hfe : List.filter (fun y => decide (y.name = nm ∧ y.depth = D)) [e] = [] := by
      have hna : ¬ (e.name = nm ∧ e.depth = D) := fun hc => hne' hc.1
      simp [hna]
    rw [List.filter_append, hfe, List.append_nil]

/-- The lookup maps after folding compileStep over a list of field
events whose depths stay below 2 to the 30: the depth map holds the
minimal depth of each name, and the fieldInfo map holds exactly the
shallowest definition of each name, dropped on a tie. -/
theorem foldl_compileStep_lookup (evs : List FieldEvent) :
    (∀ ev ∈ evs, ev.index.length < 2 ^ 30) →
    ∀ nm : String,
      ((evs.foldl compileStep ([], ⟨[], []⟩)).1.lookup nm = minNameDepth evs nm) ∧
      ((evs.foldl compileStep ([], ⟨[], []⟩)).2.m.lookup nm = shallowestWins evs nm) := by
  induction evs using List.reverseRecOn with
  | nil =>
    intro _ nm
    exact ⟨rfl, rfl⟩
  | append_singleton evs e ih =>
    intro hd nm
    have hd' : ∀ ev ∈ evs, ev.index.length < 2 ^ 30 :=
      fun ev hm => hd ev (List.mem_append_left _ hm)
    have he : e.index.length < 2 ^ 30 :=
      hd e (List.mem_append_right _ (List.mem_singleton.mpr rfl))
    have hde : e.depth = e.index.length := rfl
    rw [List.foldl_append, List.foldl_cons, List.foldl_nil]
    obtain ⟨ihd_e, ihm_e⟩ := ih hd' e.name
    by_cases hnm : nm = e.name
    · subst hnm
      cases hmin : minNameDepth evs e.name with
      | none =>
        rw [hmin] at ihd_e
        simp only [compileStep, ihd_e, Option.getD_none]
        rw [if_neg (by omega), if_pos (by omega)]
        refine ⟨?_, ?_⟩
        · try dsimp only
          rw [assocSet_lookup_self, minNameDepth_append, if_pos rfl, hmin]
          rfl
        · try dsimp only
          rw [assocSet_lookup_self, shallowestWins_append_new evs e hmin]
      | some D =>
        rw [hmin] at ihd_e
        rcases Nat.lt_trichotomy e.index.length D with hlt | heqd | hgt
        · simp only [compileStep, ihd_e, Option.getD_some]
          rw [if_neg (by omega), if_pos (by omega)]
          refine ⟨?_, ?_⟩
          · try dsimp only
            rw [assocSet_lookup_self, minNameDepth_append, if_pos rfl, hmin]
            show some e.depth = some (min D e.depth)
            exact congrArg some (by omega)
          · try dsimp only
            rw [assocSet_lookup_self,
              shallowestWins_append_shallower evs e D hmin (by omega)]
        · simp only [compileStep, ihd_e, Option.getD_some]
          rw [if_pos (by omega)]
          refine ⟨?_, ?_⟩
          · try dsimp only
            rw [ihd_e, minNameDepth_append, if_pos rfl, hmin]
            show some D = some (min D e.depth)
            exact congrArg some (by omega)
          · try dsimp only
            rw [filter_erase_lookup_self,
              shallowestWins_append_tie evs e D hmin (by omega)]
        · simp only [compileStep, ihd_e, Option.getD_some]
          rw [if_neg (by omega), if_neg (by omega)]
          refine ⟨?_, ?_⟩
          · rw [ihd_e, minNameDepth_append, if_pos rfl, hmin]
            show some D = some (min D e.depth)
            exact congrArg some (by omega)
          · rw [ihm_e, shallowestWins_append_deeper evs e D hmin (by omega)]
    · obtain ⟨ihd, ihm⟩ := ih hd' nm
      simp only [compileStep]
      split_ifs with h1 h2
      · refine ⟨?_, ?_⟩
        · try dsimp only
          rw [ihd, minNameDepth_append, if_neg (fun h => hnm h.symm)]
        · try dsimp only
          rw [filter_erase_lookup_ne _ _ _ hnm, ihm,
            shallowestWins_append_other evs e nm hnm]
      · refine ⟨?_, ?_⟩
        · try dsimp only
          rw [assocSet_lookup_ne _ _ _ _ hnm, ihd, minNameDepth_append,
            if_neg (fun h => hnm h.symm)]
        · try dsimp only
          rw [assocSet_lookup_ne _ _ _ _ hnm, ihm,
            shallowestWins_append_other evs e nm hnm]
      · refine ⟨?_, ?_⟩
        · rw [ihd, minNameDepth_append, if_neg (fun h => hnm h.symm)]
        · rw [ihm, shallowestWins_append_other evs e nm hnm]

/-- The traversal of compileFields is the fold of compileStep over the
linearised field events. -/
theorem compileFields_eq_flatten (fs : GoFields) (i : Nat) (index : List Nat)
    (depth : DepthMap) (si : StructInfoM) :
    compileFields fs i index depth si =
      match flattenFields fs i index with
      | .error e => .error e
      | .ok evs => .ok (evs.foldl compileStep (depth, si)) := by
  induction fs, i, index, depth, si using compileFields.induct
  case case1 =>
    rfl
  case case2 =>
    rename_i fname fpkg fanon ftag fty rest i index depth si h ih
    rw [compileFields.eq_def, flattenFields.eq_def]
    try dsimp only
    rw [if_pos h, if_pos h]
    exact ih
  case case3 =>
    rename_i fname fpkg ftag rest i index depth si h fs e heq ih
    have trans := heq.symm.trans ih
    rw [compileFields.eq_def, flattenFields.eq_def]
    try dsimp only
    rw [if_neg h, if_neg h, if_pos rfl, if_pos rfl]
    try dsimp only
    rw [heq]
    try dsimp only
    cases hf : flattenFields fs 0 (index ++ [i]) with
    | error e2 =>
      rw [hf] at trans
      simp only [Except.error.injEq] at trans
      try dsimp only
      rw [trans]
    | ok evs =>
      rw [hf] at trans
      exact absurd trans (by simp)
  case case4 =>
    rename_i fname fpkg ftag rest i index depth si h fs depth' si' heq ih2 ih1
    have trans := heq.symm.trans ih2
    rw [compileFields.eq_def, flattenFields.eq_def]
    try dsimp only
    rw [if_neg h, if_neg h, if_pos rfl, if_pos rfl]
    try dsimp only
    rw [heq]
    try dsimp only
    cases hf : flattenFields fs 0 (index ++ [i]) with
    | error e2 =>
      rw [hf] at trans
      exact absurd trans (by simp)
    | ok evs =>
      rw [hf] at trans
      simp only [Except.ok.injEq] at trans
      try dsimp only
      rw [ih1]
      cases hr : flattenFields rest (i + 1) index with
      | error e2 => rfl
      | ok evs2 =>
        try dsimp only
        rw [List.foldl_append, ← trans]
  case case5 =>
    rename_i fname fpkg ftag rest i index depth si h ih
    rw [compileFields.eq_def, flattenFields.eq_def]
    try dsimp only
    rw [if_neg h, if_neg h, if_pos rfl, if_pos rfl]
    exact ih
  case case6 =>
    rename_i fname fpkg fanon ftag fty rest i index depth si h1 h2 e heq
    rw [compileFields.eq_def, flattenFields.eq_def]
    try dsimp only
    rw [if_neg h1, if_neg h1, if_neg h2, if_neg h2, heq]
  case case7 =>
    rename_i fname fpkg fanon ftag fty rest i index depth si h1 h2 nm cond hptag
      depth' si' hstep ih
    rw [compileFields.eq_def, flattenFields.eq_def]
    try dsimp only
    rw [if_neg h1, if_neg h1, if_neg h2, if_neg h2, hptag]
    try dsimp only
    rw [hstep]
    try dsimp only
    rw [ih]
    cases hr : flattenFields rest (i + 1) index with
    | error e2 => rfl
    | ok evs2 =>
      try dsimp only
      rw [List.foldl_cons, hstep]

/-! # Claim theorems -/

/-- C1: structural validation is fatal: a slice read past the end of
the data aborts with ErrEOD exactly when the requested range exceeds
the input; endDoc aborts with the document length error exactly when
the offset after the elements differs from the declared one; an abort
stops the decode immediately (no continuation runs); and an abort
during a map decode is the error returned by Decode. -/
theorem c1_parse_errors_fatal :
    (∀ (data : List Nat) (n : Int) (s : DecState),
      scanSlice data n s = .error .eod ↔ (data.length : Int) < s.offset + n) ∧
    (∀ (off : Int) (s : DecState),
      endDoc off s = .error .docLengthWrong ↔ s.offset ≠ off) ∧
    (∀ (α β : Type) (m : DecM α) (f : α → DecM β) (s : DecState) (e : BsonError),
      m s = .error e → (m >>= f) s = .error e) ∧
    (∀ (data : List Nat) (fuel kind : Nat) (m0 : List (List Nat × BValue))
        (e : BsonError),
      decodeMapStringInterface data fuel kind m0 ⟨0, none⟩ = .error e →
      e ≠ .goPanic →
      decodeInternal data fuel kind (.mapStringInterface m0) = .ret (some e)) := by
  refine ⟨?_, ?_, ?_, ?_⟩
  · intro data n s
    unfold scanSlice
    split_ifs with h1 h2 <;> simp_all
  · intro off s
    unfold endDoc
    split_ifs with h <;> simp_all
  · intro α β m f s e h
    rw [DecM.bind_apply, h]
  · intro data fuel kind m0 e h hne
    simp only [decodeInternal, runTop]
    rw [h]
    cases e <;> simp_all

/-- C1 witness: a read of one byte from empty data aborts with ErrEOD,
a mismatched end offset aborts with the length error, and a document
declaring length 13 over 12 bytes of input is returned as the doc
length error by the map decode. -/
theorem c1_parse_errors_fatal_witness :
    scanSlice [] 1 ⟨0, none⟩ = .error .eod ∧
    endDoc 5 ⟨4, none⟩ = .error .docLengthWrong ∧
    decodeInternal [13, 0, 0, 0, 16, 120, 0, 5, 0, 0, 0, 0] 10 kindDocument
      (.mapStringInterface []) = .ret (some .docLengthWrong) :=
  ⟨(c1_parse_errors_fatal.1 [] 1 ⟨0, none⟩).mpr (by decide),
   (c1_parse_errors_fatal.2.1 5 ⟨4, none⟩).mpr (by decide),
   c1_parse_errors_fatal.2.2.2 [13, 0, 0, 0, 16, 120, 0, 5, 0, 0, 0, 0] 10
     kindDocument [] .docLengthWrong rfl (by decide)⟩

/-- C2: a numeric element (int32, int64 or double) decoded into a
narrower integer target that cannot represent the value records a
conversion error (keeping an earlier saved error), leaves the target
slot unchanged, and continues: the struct loop proceeds to the
remaining elements with unchanged slots, and when the pass completes
the error returned by decodeInternal is the saved one. -/
theorem c2_numeric_overflow :
    (∀ (data : List Nat) (t : GoIntTy) (cur n : Int) (kind : Nat) (s s₁ : DecState),
      kind = kindInt32 ∨ kind = kindInt64 ∨ kind = kindFloat →
      scanIntSwitch data kind s = .ok (n, s₁) →
      overflowInt t.width n = true →
      decodeInt data t cur kind s =
        .ok (cur, { s₁ with savedError := match s₁.savedError with
          | none => some (.convert kind t.name)
          | some e₀ => some e₀ })) ∧
    (∀ (data : List Nat) (t : GoUintTy) (cur n : Nat) (kind : Nat) (s s₁ : DecState),
      kind = kindInt32 ∨ kind = kindInt64 ∨ kind = kindFloat →
      scanUintSwitch data kind s = .ok (n, s₁) →
      overflowUint t.width n = true →
      decodeUint data t cur kind s =
        .ok (cur, { s₁ with savedError := match s₁.savedError with
          | none => some (.convert kind t.name)
          | some e₀ => some e₀ })) ∧
    (∀ (data : List Nat) (ty : IntStructTy) (fuel : Nat) (off : Int)
        (vals : List Int) (s s₁ s₂ : DecState) (kind : Nat) (name : List Nat)
        (idx : Nat) (t : GoIntTy) (n : Int),
      scanKindName data s = .ok ((kind, name), s₁) →
      kind = kindInt32 ∨ kind = kindInt64 ∨ kind = kindFloat →
      findField ty name = some (idx, t) →
      idx < vals.length →
      scanIntSwitch data kind s₁ = .ok (n, s₂) →
      overflowInt t.width n = true →
      structIntLoop data ty (fuel + 1) off vals s =
        structIntLoop data ty fuel off vals
          { s₂ with savedError := match s₂.savedError with
            | none => some (.convert kind t.name)
            | some e₀ => some e₀ }) ∧
    (∀ (data : List Nat) (ty : IntStructTy) (fuel kind : Nat) (vals r : List Int)
        (s' : DecState),
      decodeStructInt data ty fuel vals ⟨0, none⟩ = .ok (r, s') →
      decodeInternal data fuel kind (.intStructPtr ty vals) = .ret s'.savedError) ∧
    (∀ (e₀ e : BsonError) (s : DecState), s.savedError = some e₀ →
      saveError e s = .ok ((), s)) := by
  refine ⟨decodeInt_overflow, decodeUint_overflow, ?_, ?_, ?_⟩
  · intro data ty fuel off vals s s₁ s₂ kind name idx t n h1 h2 h3 h4 h5 h6
    exact structIntLoop_overflow_step data ty fuel off vals s s₁ s₂ kind name idx t n
      h1 h2 h3 h4 h5 h6
  · intro data ty fuel kind vals r s' h
    simp only [decodeInternal, runTop]
    rw [h]
  · intro e₀ e s h
    obtain ⟨off, se⟩ := s
    have h' : se = some e₀ := h
    subst h'
    rfl

/-- C2 witness: the int32 value 300 into an int8 field records the
conversion error, keeps the field value 7, and the completed pass
returns that error. -/
theorem c2_numeric_overflow_witness :
    decodeInt [44, 1, 0, 0] .i8 7 kindInt32 ⟨0, none⟩ =
      .ok (7, ⟨4, some (.convert kindInt32 "int8")⟩) ∧
    decodeInternal [12, 0, 0, 0, 16, 120, 0, 44, 1, 0, 0, 0] 10 kindDocument
      (.intStructPtr [([120], (0, .i8))] [7]) =
      .ret (some (.convert kindInt32 "int8")) :=
  ⟨c2_numeric_overflow.1 [44, 1, 0, 0] .i8 7 300 kindInt32 ⟨0, none⟩ ⟨4, none⟩
      (Or.inl rfl) rfl (by decide),
    c2_numeric_overflow.2.2.2.1 [12, 0, 0, 0, 16, 120, 0, 44, 1, 0, 0, 0]
      [([120], (0, .i8))] 10 kindDocument [7] [7]
      ⟨12, some (.convert kindInt32 "int8")⟩ rfl⟩

/-- C3 counterexample: kindCode (0xD) is a known kind (the decoder
converts it into string targets and it has a kindNames entry), yet
skipping it is not possible: saveErrorAndSkip aborts with a
DecodeTypeError instead of recording a conversion error and
continuing, and a whole decode of a struct meeting a code element with
no matching field aborts the same way instead of skipping it. -/
theorem c3_claim_false :
    saveErrorAndSkip [2, 0, 0, 0] kindCode "int" ⟨0, none⟩ =
      .error (.typeErr kindCode) ∧
    decodeInternal [14, 0, 0, 0, 13, 121, 0, 2, 0, 0, 0, 97, 0, 0] 10 kindDocument
      (.intStructPtr [([120], (0, .i8))] [7]) = .ret (some (.typeErr kindCode)) ∧
    (∀ target : String, BsonError.typeErr kindCode ≠ .convert kindCode target) :=
  ⟨rfl, rfl, fun _ => by simp⟩

/-- C3 as amended: for every element whose kind is in the skip table of
skipValue (string, symbol, document, array, binary, objectId, bool,
datetime, timestamp, int64, double, int32, min, max, null), the
decoder advances exactly the number of bytes of the payload layout of
that kind; a kind and target mismatch on such a kind records a
conversion error, keeping the first, and continues; the same exact
advance holds when a struct target has no field for the element name;
for the kinds code, regexp and codeWithScope, which the skip table
omits, the decoder instead aborts with a DecodeTypeError. -/
theorem c3_skip_semantics :
    (∀ (data : List Nat) (kind : Nat) (s : DecState) (sz : Int),
      skippableKind kind = true →
      specPayloadSize data s.offset kind = some sz →
      skipValue data kind s = .ok ((), { s with offset := s.offset + sz })) ∧
    (∀ (data : List Nat) (kind : Nat) (target : String) (s : DecState) (sz : Int),
      skippableKind kind = true →
      specPayloadSize data s.offset kind = some sz →
      saveErrorAndSkip data kind target s =
        .ok ((), { offset := s.offset + sz,
                   savedError := match s.savedError with
                     | none => some (.convert kind target)
                     | some e₀ => some e₀ })) ∧
    (∀ (data : List Nat) (ty : IntStructTy) (fuel : Nat) (off : Int)
        (vals : List Int) (s s₁ : DecState) (kind : Nat) (name : List Nat),
      scanKindName data s = .ok ((kind, name), s₁) →
      kind ≠ 0 → kind ≠ kindNull →
      findField ty name = none →
      structIntLoop data ty (fuel + 1) off vals s =
        (skipValue data kind >>= fun _ => structIntLoop data ty fuel off vals) s₁) ∧
    (∀ (data : List Nat) (s : DecState),
      skipValue data kindCode s = .error (.typeErr kindCode) ∧
      skipValue data kindRegexp s = .error (.typeErr kindRegexp) ∧
      skipValue data kindCodeWithScope s = .error (.typeErr kindCodeWithScope)) := by
  refine ⟨skipValue_advance, saveErrorAndSkip_advance, ?_, ?_⟩
  · intro data ty fuel off vals s s₁ kind name hscan hk0 hknull hf
    show (scanKindName data >>= fun kn =>
      if kn.1 = 0 then endDoc off >>= fun _ => pure vals
      else if kn.1 = kindNull then structIntLoop data ty fuel off vals
      else
        match findField ty kn.2 with
        | some (idx, t) =>
          decodeInt data t (vals.getD idx 0) kn.1 >>= fun v =>
          structIntLoop data ty fuel off (vals.set idx v)
        | none =>
          skipValue data kn.1 >>= fun _ => structIntLoop data ty fuel off vals) s = _
    rw [DecM.bind_apply_ok _ _ _ _ _ hscan]
    dsimp only
    rw [if_neg hk0, if_neg hknull, hf]
  · intro data s
    exact ⟨rfl, rfl, rfl⟩

/-- C3 witness: an objectId advances by exactly 12 bytes, a string by
4 plus its declared length, a mismatched string element into an int
slot records the conversion error and continues, and a struct loop
step without a matching field reduces to skipValue. -/
theorem c3_skip_semantics_witness :
    skipValue [9, 9, 9] kindObjectId ⟨3, none⟩ = .ok ((), ⟨15, none⟩) ∧
    skipValue [5, 0, 0, 0] kindString ⟨0, none⟩ = .ok ((), ⟨9, none⟩) ∧
    saveErrorAndSkip [5, 0, 0, 0] kindString "int8" ⟨0, none⟩ =
      .ok ((), ⟨9, some (.convert kindString "int8")⟩) ∧
    structIntLoop [12, 0, 0, 0, 16, 121, 0, 44, 1, 0, 0, 0] [([120], (0, .i8))]
        3 12 [7] ⟨4, none⟩ =
      (skipValue [12, 0, 0, 0, 16, 121, 0, 44, 1, 0, 0, 0] kindInt32 >>= fun _ =>
        structIntLoop [12, 0, 0, 0, 16, 121, 0, 44, 1, 0, 0, 0] [([120], (0, .i8))]
          2 12 [7]) ⟨7, none⟩ ∧
    skipValue [] kindRegexp ⟨0, none⟩ = .error (.typeErr kindRegexp) :=
  ⟨c3_skip_semantics.1 [9, 9, 9] kindObjectId ⟨3, none⟩ 12 (by decide) rfl,
   c3_skip_semantics.1 [5, 0, 0, 0] kindString ⟨0, none⟩ 9 (by decide) rfl,
   c3_skip_semantics.2.1 [5, 0, 0, 0] kindString "int8" ⟨0, none⟩ 9 (by decide) rfl,
   c3_skip_semantics.2.2.1 [12, 0, 0, 0, 16, 121, 0, 44, 1, 0, 0, 0]
     [([120], (0, .i8))] 2 12 [7] ⟨4, none⟩ ⟨7, none⟩ kindInt32 [121] rfl
     (by decide) (by decide) rfl,
   (c3_skip_semantics.2.2.2 [] ⟨0, none⟩).2.1⟩

/-- C4 counterexample: a null element inside a nested document decoded
through the interface path produces a present entry whose value is
nil, not an absent entry.  For the input document with one field b of
kind null, the interface decode yields a map containing the pair
(b, nil); only the top level map decode skips null elements. -/
theorem c4_claim_false :
    decodeValueInterface [8, 0, 0, 0, 10, 98, 0, 0] 10 kindDocument ⟨0, none⟩ =
      .ok (.doc [([98], .null)], ⟨8, none⟩) ∧
    ([98], BValue.null) ∈ [([98], BValue.null)] ∧
    decodeMapStringInterface [8, 0, 0, 0, 10, 98, 0, 0] 10 kindDocument [] ⟨0, none⟩ =
      .ok ([], ⟨8, none⟩) :=
  ⟨rfl, List.mem_singleton.mpr rfl, rfl⟩

/-- C4 as amended: the generic interface decode produces the canonical
host value for each kind: double yields the scanned float64 bits,
string the scanned string, document a string keyed map, array a
sequence, binary the scanned byte slice, objectId the scanned 12
bytes, bool a bool, datetime a DateTime, symbol a Symbol, int32 a
platform int, timestamp a Timestamp, int64 an int64, min and max the
MinMax sentinels; null yields the nil interface value, which inside a
nested document is stored as a present entry, while the top level map
decode loop skips null elements so no entry is created there. -/
theorem c4_interface_canonical :
    (∀ (data : List Nat) (fuel : Nat) (s s' : DecState) (bits : Nat),
      scanFloat data s = .ok (bits, s') →
      decodeValueInterface data (fuel + 1) kindFloat s = .ok (.double bits, s')) ∧
    (∀ (data : List Nat) (fuel : Nat) (s s' : DecState) (str : List Nat),
      scanString data s = .ok (str, s') →
      decodeValueInterface data (fuel + 1) kindString s = .ok (.str str, s')) ∧
    (∀ (data : List Nat) (fuel : Nat) (s s' : DecState) (v : BValue),
      decodeValueInterface data (fuel + 1) kindDocument s = .ok (v, s') →
      ∃ m, v = .doc m) ∧
    (∀ (data : List Nat) (fuel : Nat) (s s' : DecState) (v : BValue),
      decodeValueInterface data (fuel + 1) kindArray s = .ok (v, s') →
      ∃ a, v = .arr a) ∧
    (∀ (data : List Nat) (fuel : Nat) (s s' : DecState) (p : List Nat × Nat),
      scanBinary data s = .ok (p, s') →
      decodeValueInterface data (fuel + 1) kindBinary s = .ok (.binary p.1, s')) ∧
    (∀ (data : List Nat) (fuel : Nat) (s s' : DecState) (p : List Nat),
      scanSlice data 12 s = .ok (p, s') →
      decodeValueInterface data (fuel + 1) kindObjectId s = .ok (.objectId p, s')) ∧
    (∀ (data : List Nat) (fuel : Nat) (s s' : DecState) (b : Bool),
      scanBool data s = .ok (b, s') →
      decodeValueInterface data (fuel + 1) kindBool s = .ok (.boolean b, s')) ∧
    (∀ (data : List Nat) (fuel : Nat) (s s' : DecState) (n : Int),
      scanInt64 data s = .ok (n, s') →
      decodeValueInterface data (fuel + 1) kindDateTime s = .ok (.datetime n, s')) ∧
    (∀ (data : List Nat) (fuel : Nat) (s : DecState),
      decodeValueInterface data (fuel + 1) kindNull s = .ok (.null, s)) ∧
    (∀ (data : List Nat) (fuel : Nat) (s s' : DecState) (str : List Nat),
      scanString data s = .ok (str, s') →
      decodeValueInterface data (fuel + 1) kindSymbol s = .ok (.symbol str, s')) ∧
    (∀ (data : List Nat) (fuel : Nat) (s s' : DecState) (n : Int),
      scanInt32 data s = .ok (n, s') →
      decodeValueInterface data (fuel + 1) kindInt32 s = .ok (.int n, s')) ∧
    (∀ (data : List Nat) (fuel : Nat) (s s' : DecState) (n : Int),
      scanInt64 data s = .ok (n, s') →
      decodeValueInterface data (fuel + 1) kindTimestamp s = .ok (.timestamp n, s')) ∧
    (∀ (data : List Nat) (fuel : Nat) (s s' : DecState) (n : Int),
      scanInt64 data s = .ok (n, s') →
      decodeValueInterface data (fuel + 1) kindInt64 s = .ok (.int64 n, s')) ∧
    (∀ (data : List Nat) (fuel : Nat) (s : DecState),
      decodeValueInterface data (fuel + 1) kindMinValue s = .ok (.minmax (-1), s) ∧
      decodeValueInterface data (fuel + 1) kindMaxValue s = .ok (.minmax 1, s)) ∧
    (∀ (data : List Nat) (fuel : Nat) (m : List (List Nat × BValue))
        (s s₁ : DecState) (name : List Nat),
      scanKindName data s = .ok ((kindNull, name), s₁) →
      msiLoop data (fuel + 1) m s = msiLoop data fuel m s₁) := by
  refine ⟨?_, ?_, ?_, ?_, ?_, ?_, ?_, ?_, ?_, ?_, ?_, ?_, ?_, ?_, ?_⟩
  · intro data fuel s s' bits h
    exact DecM.bind_apply_ok _ _ _ _ _ h
  · intro data fuel s s' str h
    exact DecM.bind_apply_ok _ _ _ _ _ h
  · intro data fuel s s' v h
    obtain ⟨off, s₁, h1, h2⟩ := DecM.bind_eq_ok h
    obtain ⟨m, s₂, h3, h4⟩ := DecM.bind_eq_ok h2
    obtain ⟨u, s₃, h5, h6⟩ := DecM.bind_eq_ok h4
    rw [DecM.pure_apply] at h6
    simp only [Except.ok.injEq, Prod.mk.injEq] at h6
    exact ⟨m, h6.1.symm⟩
  · intro data fuel s s' v h
    obtain ⟨off, s₁, h1, h2⟩ := DecM.bind_eq_ok h
    obtain ⟨a, s₂, h3, h4⟩ := DecM.bind_eq_ok h2
    obtain ⟨u, s₃, h5, h6⟩ := DecM.bind_eq_ok h4
    rw [DecM.pure_apply] at h6
    simp only [Except.ok.injEq, Prod.mk.injEq] at h6
    exact ⟨a, h6.1.symm⟩
  · intro data fuel s s' p h
    exact DecM.bind_apply_ok _ _ _ _ _ h
  · intro data fuel s s' p h
    exact DecM.bind_apply_ok _ _ _ _ _ h
  · intro data fuel s s' b h
    exact DecM.bind_apply_ok _ _ _ _ _ h
  · intro data fuel s s' n h
    exact DecM.bind_apply_ok _ _ _ _ _ h
  · intro data fuel s
    rfl
  · intro data fuel s s' str h
    exact DecM.bind_apply_ok _ _ _ _ _ h
  · intro data fuel s s' n h
    exact DecM.bind_apply_ok _ _ _ _ _ h
  · intro data fuel s s' n h
    exact DecM.bind_apply_ok _ _ _ _ _ h
  · intro data fuel s s' n h
    exact DecM.bind_apply_ok _ _ _ _ _ h
  · intro data fuel s
    exact ⟨rfl, rfl⟩
  · intro data fuel m s s₁ name h
    show (scanKindName data >>= fun kn =>
      if kn.1 = 0 then pure m
      else if kn.1 = kindNull then msiLoop data fuel m
      else
        decodeValueInterface data fuel kn.1 >>= fun v =>
        msiLoop data fuel (assocSet m kn.2 v)) s = _
    rw [DecM.bind_apply_ok _ _ _ _ _ h]
    simp [kindNull]

/-- C4 witness: concrete decodes of a double (raw bits), an int32, a
null and a nested document containing one string field. -/
theorem c4_interface_canonical_witness :
    decodeValueInterface [0, 0, 0, 0, 0, 0, 240, 63] 5 kindFloat ⟨0, none⟩ =
      .ok (.double 4607182418800017408, ⟨8, none⟩) ∧
    decodeValueInterface [44, 1, 0, 0] 5 kindInt32 ⟨0, none⟩ =
      .ok (.int 300, ⟨4, none⟩) ∧
    decodeValueInterface [] 5 kindNull ⟨0, none⟩ = .ok (.null, ⟨0, none⟩) ∧
    (∃ m, BValue.doc [([98], BValue.int 5)] = BValue.doc m) :=
  ⟨c4_interface_canonical.1 [0, 0, 0, 0, 0, 0, 240, 63] 4 ⟨0, none⟩ ⟨8, none⟩
      4607182418800017408 rfl,
   c4_interface_canonical.2.2.2.2.2.2.2.2.2.2.1 [44, 1, 0, 0] 4 ⟨0, none⟩ ⟨4, none⟩
      300 rfl,
   c4_interface_canonical.2.2.2.2.2.2.2.2.1 [] 4 ⟨0, none⟩,
   c4_interface_canonical.2.2.1 [12, 0, 0, 0, 16, 98, 0, 5, 0, 0, 0, 0] 4
      ⟨0, none⟩ ⟨12, none⟩ (.doc [([98], BValue.int 5)]) rfl⟩

/-- C9: for every time t with 0 le t lt 2 to the 32 and counter c below
2 to the 64, the 12 byte object id has bytes 0..3 equal to the big
endian encoding of t and bytes 4..11 equal to the big endian encoding
of c; MinObjectIdForTime fixes the counter bytes to zero,
MaxObjectIdForTime to all ones, and CreationTime recovers t. -/
theorem c9_object_id_layout (t : Int) (c : Nat) (h0 : 0 ≤ t) (h1 : t < 2 ^ 32)
    (h2 : c < 2 ^ 64) :
    beBytes ((newObjectId t c).take 4) = t.toNat ∧
    beBytes ((newObjectId t c).drop 4) = c ∧
    (MinObjectIdForTime t).drop 4 = [0, 0, 0, 0, 0, 0, 0, 0] ∧
    (MaxObjectIdForTime t).drop 4 = [255, 255, 255, 255, 255, 255, 255, 255] ∧
    CreationTime (newObjectId t c) = t := by
  refine ⟨?_, ?_, ?_, ?_, ?_⟩
  · simp only [newObjectId, beBytes, List.take, List.foldl, goByteI]
    norm_num
    omega
  · simp only [newObjectId, beBytes, List.drop, List.foldl, goByteU]
    norm_num
    omega
  · simp [MinObjectIdForTime, newObjectId, goByteU]
  · simp only [MaxObjectIdForTime, newObjectId, List.drop, goByteU]
    norm_num
  · simp only [newObjectId, CreationTime, List.length_cons, List.length_nil, List.getD,
      List.get?, goByteI]
    norm_num
    omega

/-- C9 witness at t = 5 and c = 7. -/
theorem c9_object_id_layout_witness :
    beBytes ((newObjectId 5 7).take 4) = (5 : Int).toNat ∧
    beBytes ((newObjectId 5 7).drop 4) = 7 ∧
    (MinObjectIdForTime 5).drop 4 = [0, 0, 0, 0, 0, 0, 0, 0] ∧
    (MaxObjectIdForTime 5).drop 4 = [255, 255, 255, 255, 255, 255, 255, 255] ∧
    CreationTime (newObjectId 5 7) = 5 :=
  c9_object_id_layout 5 7 (by decide) (by decide) (by decide)

/-- C10: Decode with a nil map, a nil pointer or a non pointer non map
target returns the corresponding error value rather than panicking,
and an internal parse abort with any error other than a Go runtime
panic is converted by the recovery handler into that returned error. -/
theorem c10_decode_arg_errors :
    (∀ data fuel, Decode data fuel .nilMap =
      .ret (some (.argError "bson: Decode map arg must not be nil."))) ∧
    (∀ data fuel, Decode data fuel .nilPtr =
      .ret (some (.argError "bson: Decode pointer arg must not be nil."))) ∧
    (∀ data fuel, Decode data fuel .notPtrOrMap =
      .ret (some (.argError "bson: Decode arg must be pointer or map."))) ∧
    (∀ (α : Type) (m : DecM α) (e : BsonError), m ⟨0, none⟩ = .error e →
      e ≠ .goPanic → runTop m = .ret (some e)) := by
  refine ⟨fun _ _ => rfl, fun _ _ => rfl, fun _ _ => rfl, ?_⟩
  intro α m e h hne
  unfold runTop
  rw [h]
  cases e <;> simp_all

/-- C10 witness: the abort of endDoc is returned as the decode error. -/
theorem c10_decode_arg_errors_witness :
    runTop (DecM.abort (α := Unit) .docLengthWrong) = .ret (some .docLengthWrong) :=
  c10_decode_arg_errors.2.2.2 Unit (DecM.abort .docLengthWrong) .docLengthWrong rfl
    (by decide)

/-- C7: Update and UpdateAll return ErrNotFound exactly when the last
error command is configured, the transport reported no error, the
acknowledge round trip reported no error and its updatedExisting field
is false; the acknowledge reports no error exactly when find, next,
the command status and the err field are all clean; with the
acknowledge disabled and a clean transport both return nil. -/
theorem c7_update_not_found :
    (∀ (ack : Bool) (gle : GleEnv) (connErr : Option Nat),
      collectionUpdate ack gle connErr = some .errNotFound ↔
        ack = true ∧ connErr = none ∧ (lastError gle).2 = none ∧
          gle.merr.updated = false) ∧
    (∀ (ack : Bool) (gle : GleEnv) (connErr : Option Nat),
      collectionUpdateAll ack gle connErr = some .errNotFound ↔
        ack = true ∧ connErr = none ∧ (lastError gle).2 = none ∧
          gle.merr.updated = false) ∧
    (∀ gle : GleEnv, (lastError gle).2 = none ↔
      gle.findErr = none ∧ gle.nextErr = none ∧ gle.resp.ok = true ∧
        gle.merr.err = "") ∧
    (∀ gle : GleEnv, collectionUpdate false gle none = none) ∧
    (∀ gle : GleEnv, collectionUpdateAll false gle none = none) := by
  refine ⟨fun ack gle connErr => update_notFound_iff ack gle connErr,
    fun ack gle connErr => updateAll_eq_update ▸ update_notFound_iff ack gle connErr,
    fun gle => lastError_snd_none_iff gle,
    fun gle => rfl, fun gle => rfl⟩

/-- C7 witness: a clean acknowledged update of no existing document at
a concrete environment returns the sentinel, and the unacknowledged
variant returns nil. -/
theorem c7_update_not_found_witness :
    (collectionUpdate true ⟨none, none, ⟨true, ""⟩, ⟨"", 0, 0, false⟩⟩ none =
      some .errNotFound) ∧
    collectionUpdate false ⟨none, none, ⟨true, ""⟩, ⟨"", 0, 0, false⟩⟩ none = none :=
  ⟨(c7_update_not_found.1 true ⟨none, none, ⟨true, ""⟩, ⟨"", 0, 0, false⟩⟩ none).2
      ⟨rfl, rfl, rfl, rfl⟩,
    c7_update_not_found.2.2.2.1 ⟨none, none, ⟨true, ""⟩, ⟨"", 0, 0, false⟩⟩⟩

/-- C8: CreateIndex inserts into the system.indexes collection of the
same database with a non nil last error command even when the
collection has none, and when no name is given the descriptor name is
IndexName, the underscore joined concatenation of keys and
directions. -/
theorem c8_create_index :
    (∀ (c : CollectionModel) (keys : List (String × IndexDir))
        (opts : Option IndexOptionsM) (r : InsertCall),
      CreateIndex c keys opts = .ok r →
      r.Namespace = (splitNamespace c.Namespace).1 ++ "." ++ "system.indexes" ∧
      r.LastErrorCmd.isSome = true) ∧
    (∀ (c : CollectionModel) (keys : List (String × IndexDir)) (r : InsertCall),
      CreateIndex c keys none = .ok r →
      IndexName keys = .ok r.Index.Options.Name) ∧
    (∀ (c : CollectionModel) (keys : List (String × IndexDir))
        (opts : IndexOptionsM) (r : InsertCall),
      opts.Name = "" → CreateIndex c keys (some opts) = .ok r →
      IndexName keys = .ok r.Index.Options.Name) ∧
    (∀ keys : List (String × IndexDir), (∀ kv ∈ keys, kv.2 ≠ IndexDir.other) →
      IndexName keys = .ok (specIndexName keys)) := by
  refine ⟨?_, ?_, ?_, indexName_spec⟩
  · intro c keys opts r h
    unfold CreateIndex at h
    cases hX : resolveIndexName keys (effectiveOptions opts) with
    | error e => rw [hX] at h; exact absurd h (by simp)
    | ok nm =>
      rw [hX] at h
      simp only [Except.ok.injEq] at h
      subst h
      refine ⟨rfl, ?_⟩
      cases c.LastErrorCmd <;> rfl
  · intro c keys r h
    unfold CreateIndex at h
    cases hX : resolveIndexName keys (effectiveOptions none) with
    | error e => rw [hX] at h; exact absurd h (by simp)
    | ok nm =>
      rw [hX] at h
      simp only [Except.ok.injEq] at h
      subst h
      rw [resolveIndexName,
        if_pos (show (effectiveOptions (none : Option IndexOptionsM)).Name = "" from rfl)] at hX
      exact hX
  · intro c keys opts r hname h
    unfold CreateIndex at h
    cases hX : resolveIndexName keys (effectiveOptions (some opts)) with
    | error e => rw [hX] at h; exact absurd h (by simp)
    | ok nm =>
      rw [hX] at h
      simp only [Except.ok.injEq] at h
      subst h
      rw [resolveIndexName] at hX
      rw [show effectiveOptions (some opts) = opts from rfl, if_pos hname] at hX
      exact hX

/-- C5 counterexample: for the struct type with an anonymous field A of
struct type with field X, followed by a field X, the compiled list l
keeps both the depth one definition of X (index [0, 0]) and the depth
zero definition (index [1]), and the fields document lists X twice;
the metadata therefore does not keep only the definition at the
strictly shallowest embedding depth.  Only the map m keeps just the
shallowest definition. -/
theorem c5_claim_false :
    structInfoForType (.structTy (.cons (.mk "A" "" true ""
        (.structTy (.cons (.mk "X" "" false "" .nonStruct) .nil)))
      (.cons (.mk "X" "" false "" .nonStruct) .nil))) =
      .ok { m := [("X", ⟨"X", [1], false⟩)],
            l := [⟨"X", [0, 0], false⟩, ⟨"X", [1], false⟩],
            fields := [("X", 1), ("X", 1), ("_id", 0)] } ∧
    (⟨"X", [0, 0], false⟩ : FieldInfoM) ∈
      [(⟨"X", [0, 0], false⟩ : FieldInfoM), ⟨"X", [1], false⟩] ∧
    (⟨"X", [1], false⟩ : FieldInfoM) ∈
      [(⟨"X", [0, 0], false⟩ : FieldInfoM), ⟨"X", [1], false⟩] ∧
    (⟨"X", [0, 0], false⟩ : FieldInfoM).index.length ≠
      (⟨"X", [1], false⟩ : FieldInfoM).index.length :=
  ⟨rfl, by decide, by decide, by decide⟩

/-- C5 as amended: the shallowest depth rule holds for the name to
fieldInfo map m of the compiled metadata: for every struct type whose
field depths stay below 2 to the 30, the lookup of a name in m is the
unique field event of minimal embedding depth with that name, and none
when two events share that minimal depth or the name does not occur.
The ordered list l (and hence the fields document) is not filtered
this way. -/
theorem c5_shallowest_map (fs : GoFields) (si : StructInfoT) (evs : List FieldEvent)
    (h : structInfoForType (.structTy fs) = .ok si)
    (hf : flattenFields fs 0 [] = .ok evs)
    (hd : ∀ ev ∈ evs, ev.index.length < 2 ^ 30) (nm : String) :
    si.m.lookup nm = shallowestWins evs nm := by
  simp only [structInfoForType] at h
  rw [compileFields_eq_flatten, hf] at h
  have h3 := Except.ok.inj h
  subst h3
  exact (foldl_compileStep_lookup evs hd nm).2

/-- C5 witness: the amended statement applied to the counterexample
type: the map keeps the depth zero definition of X. -/
theorem c5_shallowest_map_witness :
    (List.lookup "X" [("X", (⟨"X", [1], false⟩ : FieldInfoM))] =
      shallowestWins [⟨"X", false, [0], 0⟩, ⟨"X", false, [], 1⟩] "X") ∧
    shallowestWins [⟨"X", false, [0], 0⟩, ⟨"X", false, [], 1⟩] "X" =
      some ⟨"X", [1], false⟩ :=
  ⟨c5_shallowest_map
      (.cons (.mk "A" "" true ""
          (.structTy (.cons (.mk "X" "" false "" .nonStruct) .nil)))
        (.cons (.mk "X" "" false "" .nonStruct) .nil))
      ⟨[("X", ⟨"X", [1], false⟩)],
       [⟨"X", [0, 0], false⟩, ⟨"X", [1], false⟩],
       [("X", 1), ("X", 1), ("_id", 0)]⟩
      [⟨"X", false, [0], 0⟩, ⟨"X", false, [], 1⟩]
      rfl rfl (by decide) "X",
   rfl⟩

/-- C6 counterexample: for the struct type with fields Id (tagged _id)
and X, the compiled metadata contains a field named _id, yet the
StructFields document is only (X, 1): the present field _id is not
listed with value 1, contrary to the claim that all present fields are
listed with value 1. -/
theorem c6_claim_false :
    structInfoForType (.structTy (.cons (.mk "Id" "" false "_id" .nonStruct)
        (.cons (.mk "X" "" false "" .nonStruct) .nil))) =
      .ok { m := [("_id", ⟨"_id", [0], false⟩), ("X", ⟨"X", [1], false⟩)],
            l := [⟨"_id", [0], false⟩, ⟨"X", [1], false⟩],
            fields := [("X", 1)] } ∧
    StructFields (.structTy (.cons (.mk "Id" "" false "_id" .nonStruct)
        (.cons (.mk "X" "" false "" .nonStruct) .nil))) = .ok [("X", 1)] ∧
    ("_id", (1 : Int)) ∉ [("X", (1 : Int))] :=
  ⟨rfl, rfl, by decide⟩

/-- C6 as amended: for every struct type, StructFields lists the
compiled fields except those named _id with value 1 in compiled order,
and appends the pair (_id, 0) exactly when no compiled field is named
_id; a field named _id itself is never listed. -/
theorem c6_struct_fields (t : GoTy) (si : StructInfoT)
    (h : structInfoForType t = .ok si) :
    StructFields t = .ok si.fields ∧
    si.fields =
      (si.l.filter (fun fi => fi.name ≠ "_id")).map (fun fi => (fi.name, (1 : Int))) ++
        (if si.l.any (fun fi => fi.name = "_id") then [] else [("_id", 0)]) := by
  constructor
  · unfold StructFields
    rw [h]
  · cases t with
    | nonStruct => exact absurd h (by simp [structInfoForType])
    | structTy fs =>
      simp only [structInfoForType] at h
      cases hc : compileFields fs 0 [] [] ⟨[], []⟩ with
      | error e => rw [hc] at h; exact absurd h (by simp)
      | ok p =>
        rw [hc] at h
        simp only [Except.ok.injEq] at h
        subst h
        exact buildFields_spec _

/-- C6 witness: the amended statement applied to a struct with fields
X and Y and no _id field. -/
theorem c6_struct_fields_witness :
    StructFields (.structTy (.cons (.mk "X" "" false "" .nonStruct)
        (.cons (.mk "Y" "" false "" .nonStruct) .nil))) =
      .ok [("X", 1), ("Y", 1), ("_id", 0)] :=
  (c6_struct_fields (.structTy (.cons (.mk "X" "" false "" .nonStruct)
        (.cons (.mk "Y" "" false "" .nonStruct) .nil)))
      { m := [("X", ⟨"X", [0], false⟩), ("Y", ⟨"Y", [1], false⟩)],
        l := [⟨"X", [0], false⟩, ⟨"Y", [1], false⟩],
        fields := [("X", 1), ("Y", 1), ("_id", 0)] } rfl).1

/-- C8 witness: a concrete CreateIndex call on a collection with the
acknowledge disabled. -/
theorem c8_create_index_witness :
    ((CreateIndex ⟨"db.col", none⟩ [("x", .int 1)] none =
        .ok { Namespace := "db.system.indexes", LastErrorCmd := some 0,
              Index := { Keys := [("x", .int 1)], Ns := "db.col",
                         Options := { defaultIndexOptions with Name := "x_1" } } }) ∧
      ("db" ++ "." ++ "system.indexes" = "db.system.indexes") ∧
      (some 0 : Option Nat).isSome = true) ∧
    IndexName [("x", .int 1), ("y", .int (-1))] = .ok "x_1_y_-1" :=
  ⟨⟨rfl,
    (c8_create_index.1 ⟨"db.col", none⟩ [("x", .int 1)] none _ rfl).1.symm.trans rfl,
    (c8_create_index.1 ⟨"db.col", none⟩ [("x", .int 1)] none _ rfl).2⟩,
    (c8_create_index.2.2.2 [("x", .int 1), ("y", .int (-1))] (by decide)).trans rfl⟩

end GoMongo
